import Mathlib

/-!
# Verification of the Dataplex aspect-attachment scripts

Shallow embedding of `aspect_attach.py` and `aspect_attach_column.py`:
Python strings are modelled as `List Char`, the external world (Dataplex
listing endpoints, BigQuery client, HTTP attachment responses) as explicit
environment records, and each script's top-to-bottom control flow as a pure
function from arguments and environment to the trace of attachment calls it
issues plus its exit behaviour.
-/

/-- A Python string, modelled as its list of characters. -/
abbrev PyStr := List Char

/-- The whitespace characters stripped by Python `str.strip()`
(space, tab, newline, vertical tab, form feed, carriage return). -/
def isPySpace (c : Char) : Bool :=
  c = ' ' || c = '\t' || c = '\n' || c = ⟨11, by decide⟩ || c = ⟨12, by decide⟩ || c = '\r'

/-- Python `str.strip()`: drop leading and trailing whitespace. -/
def pyStrip (s : PyStr) : PyStr :=
  ((s.dropWhile isPySpace).reverse.dropWhile isPySpace).reverse

/-- Python `str.split(sep)` for a one-character separator: always returns a
non-empty list of (possibly empty) fields. -/
def splitOnChar (sep : Char) : PyStr → List PyStr
  | [] => [[]]
  | c :: cs =>
    if c = sep then [] :: splitOnChar sep cs
    else
      match splitOnChar sep cs with
      | [] => [[c]]
      | t :: ts => (c :: t) :: ts

/-- Membership of a string in a list of strings (Python `in` on dict keys). -/
def containsStr : List PyStr → PyStr → Bool
  | [], _ => false
  | x :: xs, a => if x = a then true else containsStr xs a

/-- Python dict lookup on an association list (dict key → value). -/
def lookupStr {β : Type} : List (PyStr × β) → PyStr → Option β
  | [], _ => none
  | (k, v) :: rest, t => if k = t then some v else lookupStr rest t

/-- Worker for `pyDedup`: walks the list with the set of already-seen keys,
keeping each first occurrence (the behaviour of `dict.fromkeys`). -/
def pyDedupGo : List PyStr → List PyStr → List PyStr
  | _, [] => []
  | seen, x :: xs =>
    if containsStr seen x then pyDedupGo seen xs
    else x :: pyDedupGo (x :: seen) xs

/-- `list(dict.fromkeys(l))`: remove duplicates keeping the first occurrence
of each element, preserving order (lines 48 resp. 48 of the scripts). -/
def pyDedup (l : List PyStr) : List PyStr := pyDedupGo [] l

/-- The aspect catalog loaded from `aspects.json`: the `"groups"` key maps
group names to member-id lists; every other top-level key is an aspect id
(`aspect_groups` and `all_aspects` in both scripts, lines 31–34). -/
structure AspectCatalog where
  groups : List (PyStr × List PyStr)
  aspects : List PyStr

/-- `input_aspects` (lines 35 resp. 37): split the `--aspects` value on
commas, strip each token, and drop tokens that strip to empty. -/
def inputAspects (s : PyStr) : List PyStr :=
  ((splitOnChar ',' s).map pyStrip).filter (fun a => a ≠ [])

/-- The expansion loop (lines 41–47 resp. 42–47): a token naming a group is
replaced by the group's member list in order; any other token is kept as a
literal aspect id. -/
def expandAspects (groups : List (PyStr × List PyStr)) : List PyStr → List PyStr
  | [] => []
  | t :: ts =>
    (match lookupStr groups t with
     | some ms => ms
     | none => [t]) ++ expandAspects groups ts

/-- `expanded_aspects` after dedup (line 48 of both scripts). -/
def expandedAspects (cat : AspectCatalog) (s : PyStr) : List PyStr :=
  pyDedup (expandAspects cat.groups (inputAspects s))

/-- `invalid_aspects` (lines 51 resp. 50): the expanded ids that are not
keys of the catalog (the `"groups"` key excluded by construction). -/
def invalidAspects (cat : AspectCatalog) (l : List PyStr) : List PyStr :=
  l.filter (fun a => ¬ containsStr cat.aspects a)

/-- Outcome of the module-level aspect resolution shared by both scripts
(lines 35–57 resp. 37–55): empty selection and unknown ids both call
`sys.exit(1)` before any network activity. -/
inductive ResolveResult where
  | configError : ResolveResult
  | unknownAspects (bad : List PyStr) : ResolveResult
  | ok (aspects : List PyStr) : ResolveResult
deriving DecidableEq

/-- The full resolution pipeline of both scripts: tokenize, reject the empty
selection, expand groups, dedup, and validate every id against the catalog. -/
def resolveAspects (cat : AspectCatalog) (s : PyStr) : ResolveResult :=
  if inputAspects s = [] then .configError
  else if invalidAspects cat (expandedAspects cat s) ≠ [] then
    .unknownAspects (invalidAspects cat (expandedAspects cat s))
  else .ok (expandedAspects cat s)

/-! ## Percent-encoding (`urllib.parse.quote` with the default `safe` set) -/

/-- The characters `urllib.parse.quote` never encodes: ASCII letters,
digits, and `_ . - ~` (as byte values). -/
def isAlwaysSafeByte (b : Nat) : Bool :=
  (65 ≤ b && b ≤ 90) || (97 ≤ b && b ≤ 122) || (48 ≤ b && b ≤ 57) ||
  b = 45 || b = 46 || b = 95 || b = 126

/-- Safe set of `quote(s)` as called in both scripts: the default
`safe` parameter additionally leaves `/` (byte 47) unencoded. -/
def isQuoteSafeByte (b : Nat) : Bool := isAlwaysSafeByte b || b = 47

/-- Upper-case hexadecimal digit for a value below 16. -/
def hexDigitUpper (n : Nat) : Char :=
  if n < 10 then Char.ofNat (48 + n) else Char.ofNat (55 + n)

/-- Encoding of one byte: safe bytes stay literal, the rest become `%XX`. -/
def quoteByte (b : Nat) : List Char :=
  if isQuoteSafeByte b then [Char.ofNat b]
  else ['%', hexDigitUpper (b / 16), hexDigitUpper (b % 16)]

/-- `urllib.parse.quote` over the UTF-8 bytes of the input string. -/
def pyQuote : List Nat → List Char
  | [] => []
  | b :: bs => quoteByte b ++ pyQuote bs

/-- Recognizer of hexadecimal digits (both cases), as `urllib.parse.unquote`
accepts them. -/
def isHexDigitChar (c : Char) : Bool :=
  ('0' ≤ c && c ≤ '9') || ('A' ≤ c && c ≤ 'F') || ('a' ≤ c && c ≤ 'f')

/-- Value of a hexadecimal digit character. -/
def hexVal (c : Char) : Nat :=
  if c ≤ '9' then c.toNat - 48 else if c ≤ 'F' then c.toNat - 55 else c.toNat - 87

/-- `urllib.parse.unquote`, at the byte level: a `%` followed by two hex
digits decodes to that byte; any other character stands for its own code
(an incomplete escape stays a literal `%`, byte 37). -/
def pyUnquote : List Char → List Nat
  | [] => []
  | c :: rest =>
    if c = '%' then
      match rest with
      | c1 :: c2 :: rest2 =>
        if isHexDigitChar c1 && isHexDigitChar c2 then
          (hexVal c1 * 16 + hexVal c2) :: pyUnquote rest2
        else 37 :: pyUnquote (c1 :: c2 :: rest2)
      | [c1] => [37, c1.toNat]
      | [] => [37]
    else c.toNat :: pyUnquote rest

/-- The UTF-8 bytes of an ASCII string literal. -/
def strBytes (s : String) : List Nat := s.data.map Char.toNat

/-- The un-encoded table entry identifier built by `attach_aspects`
(line 74 of `aspect_attach.py`, line 161 of `aspect_attach_column.py`):
`bigquery.googleapis.com/projects/{p}/datasets/{d}/tables/{t}`. -/
def entryIdBytes (p d t : List Nat) : List Nat :=
  strBytes "bigquery.googleapis.com/projects/" ++ p ++ strBytes "/datasets/" ++ d
    ++ strBytes "/tables/" ++ t

/-- The percent-encoded entry identifier, `quote(entry_id)`, that both
scripts splice into the entry resource name and the PATCH URL. -/
def encodedEntryId (p d t : List Nat) : List Char := pyQuote (entryIdBytes p d t)

/-! ## Shared walk ingredients -/

/-- Python truthiness of an optional string flag (`if args.asset and ...`):
an absent flag and an empty string are both falsy. -/
def truthy : Option PyStr → Bool
  | none => false
  | some s => s ≠ []

/-- Whether `p` is an initial segment of `s`. -/
def leadsWith : List Char → List Char → Bool
  | [], _ => true
  | _ :: _, [] => false
  | p :: ps, c :: cs => p = c && leadsWith ps cs

/-- Fueled worker for `replaceAll`; the fuel is the string length, enough
for one step per character consumed. -/
def replaceAllGo (pat rep : List Char) : Nat → List Char → List Char
  | 0, s => s
  | _ + 1, [] => []
  | fuel + 1, c :: cs =>
    if leadsWith pat (c :: cs) then
      rep ++ replaceAllGo pat rep fuel (List.drop (pat.length - 1) cs)
    else c :: replaceAllGo pat rep fuel cs

/-- Python `str.replace(pat, rep)`: replace all non-overlapping occurrences
left to right (for a non-empty pattern). -/
def replaceAll (pat rep s : List Char) : List Char := replaceAllGo pat rep s.length s

/-- `resource.replace("//bigquery.googleapis.com/", "")` as both scripts
apply it to an asset's underlying resource path. -/
def stripBqService (r : PyStr) : PyStr := replaceAll "//bigquery.googleapis.com/".data [] r

/-- `name.split('/')[-1]`: the last slash-separated component. -/
def lastComponent (s : PyStr) : PyStr := (splitOnChar '/' s).getLastD []

/-- One issued PATCH attachment call, identified by the data the scripts put
into the entry name and payload target: BigQuery project and dataset, the
table when attaching at table/column granularity, and the column when the
payload carries a column sub-target. -/
structure AttachCall where
  project : PyStr
  dataset : PyStr
  table : Option PyStr
  column : Option PyStr
deriving DecidableEq

/-- A table as returned by `bq_client.list_tables`. -/
structure TableInfo where
  table_id : PyStr
deriving DecidableEq

/-- An asset as returned by the Dataplex assets listing: its full resource
name, its `resourceSpec.type` tag, and its `resourceSpec.resource` path. -/
structure AssetInfo where
  name : PyStr
  rtype : Option PyStr
  resource : Option PyStr
deriving DecidableEq

instance {α β : Type} [DecidableEq α] [DecidableEq β] : DecidableEq (Except α β) := fun a b =>
  match a, b with
  | .error x, .error y =>
    if h : x = y then .isTrue (congrArg Except.error h)
    else .isFalse (fun he => h (Except.error.inj he))
  | .ok x, .ok y =>
    if h : x = y then .isTrue (congrArg Except.ok h)
    else .isFalse (fun he => h (Except.ok.inj he))
  | .error _, .ok _ => .isFalse (fun he => Except.noConfusion he)
  | .ok _, .error _ => .isFalse (fun he => Except.noConfusion he)

/-- A zone together with the outcome of listing its assets (`.error` models
an HTTP error response, which `raise_for_status` turns into an exception). -/
structure ZoneInfo where
  name : PyStr
  assetsResp : Except Unit (List AssetInfo)
deriving DecidableEq

/-! ## Run model of `aspect_attach_column.py` -/

/-- The `--entry_type` choice (argparse restricts it to these three). -/
inductive EntryType where
  | asset : EntryType
  | table : EntryType
  | column : EntryType
deriving DecidableEq

/-- The parsed command line of `aspect_attach_column.py`.
`include_columns` is restricted by argparse to `"true"`/`"false"` and
compared lowercased against `"true"`, hence a `Bool` here. -/
structure Args where
  entry_type : EntryType
  lake : PyStr
  asset : Option PyStr
  table : Option PyStr
  column : Option PyStr
  aspects : PyStr
  include_columns : Bool

/-- The external world of `aspect_attach_column.py`: the zones listing of
the target lake, per-dataset table listings (`.error` models `NotFound`),
table schemas (`.error` models a raised lookup failure), and whether each
PATCH attachment returns HTTP 200. -/
structure ColEnv where
  zonesResp : Except Unit (List ZoneInfo)
  listTables : PyStr → PyStr → Except Unit (List TableInfo)
  getTable : PyStr → PyStr → PyStr → Except Unit (List PyStr)
  attachOk : AttachCall → Bool

/-- How a run of `aspect_attach_column.py` ends: a `sys.exit` / normal exit
code, or an exception that nothing catches (`raise_for_status` outside any
`try`). -/
inductive RunOutcome where
  | exitCode : Nat → RunOutcome
  | uncaught : RunOutcome
deriving DecidableEq

/-- Observable result of a run: the ordered attachment calls issued, the
final `success_count`, and how the process ended. -/
structure RunResult where
  calls : List AttachCall
  succ : Nat
  outcome : RunOutcome
deriving DecidableEq

/-- Walk state: the calls issued so far and the running `success_count`. -/
structure St where
  calls : List AttachCall
  count : Nat
deriving DecidableEq

/-- Issue one attachment call and bump `success_count` when the response is
HTTP 200 (`if attach_aspects(...): success_count += 1`). -/
def pushCall (env : ColEnv) (st : St) (c : AttachCall) : St :=
  ⟨st.calls ++ [c], st.count + (if env.attachOk c then 1 else 0)⟩

/-- Body of the table loop (lines 157–184): apply the table filter, then
attach at table granularity (descending into all columns when
`--include_columns true`) or at column granularity; `entry_type=column`
without a column name hits `sys.exit(1)` here, mid-walk. -/
def procTable (args : Args) (env : ColEnv) (proj ds : PyStr) (st : St) (t : TableInfo) :
    Except RunResult St :=
  if truthy args.table ∧ t.table_id ≠ args.table.getD [] then .ok st
  else
    match args.entry_type with
    | .asset => .ok st
    | .table =>
      let st1 := pushCall env st ⟨proj, ds, some t.table_id, none⟩
      if args.include_columns then
        match env.getTable proj ds t.table_id with
        | .error _ => .error ⟨st1.calls, st1.count, .uncaught⟩
        | .ok fields =>
          .ok (fields.foldl (fun s f => pushCall env s ⟨proj, ds, some t.table_id, some f⟩) st1)
      else .ok st1
    | .column =>
      if truthy args.column then
        .ok (pushCall env st ⟨proj, ds, some t.table_id, some (args.column.getD [])⟩)
      else .error ⟨st.calls, st.count, .exitCode 1⟩

/-- The table loop over a listed dataset. -/
def walkTables (args : Args) (env : ColEnv) (proj ds : PyStr) :
    St → List TableInfo → Except RunResult St
  | st, [] => .ok st
  | st, t :: ts =>
    match procTable args env proj ds st t with
    | .error r => .error r
    | .ok st1 => walkTables args env proj ds st1 ts

/-- Extraction of the BigQuery project and dataset from an asset's
resource path (lines 131–139): `continue` on a missing or empty path and
on anything that does not split into exactly 4 components after stripping
the `//bigquery.googleapis.com/` service part. -/
def parseResource (a : AssetInfo) : Option (PyStr × PyStr) :=
  match a.resource with
  | none => none
  | some r =>
    if r = [] then none
    else
      let parts := splitOnChar '/' (stripBqService r)
      if parts.length ≠ 4 then none
      else some (parts.getD 1 [], parts.getD 3 [])

/-- Body of the asset loop (lines 124–184): asset filter, resource-path
presence and 4-component parse check, then the `asset` branch (no resource
type check) or the `table`/`column` branch (restricted to
`BIGQUERY_DATASET` assets, with `NotFound` on the tables listing skipping
the asset). -/
def procAsset (args : Args) (env : ColEnv) (st : St) (a : AssetInfo) : Except RunResult St :=
  if truthy args.asset ∧ lastComponent a.name ≠ args.asset.getD [] then .ok st
  else
    match parseResource a with
    | none => .ok st
    | some (proj, ds) =>
      match args.entry_type with
      | .asset => .ok (pushCall env st ⟨proj, ds, none, none⟩)
      | _ =>
        if a.rtype = some "BIGQUERY_DATASET".data then
          match env.listTables proj ds with
          | .error _ => .ok st
          | .ok tabs => walkTables args env proj ds st tabs
        else .ok st

/-- The asset loop over one zone's listing. -/
def walkAssets (args : Args) (env : ColEnv) : St → List AssetInfo → Except RunResult St
  | st, [] => .ok st
  | st, a :: rest =>
    match procAsset args env st a with
    | .error r => .error r
    | .ok st1 => walkAssets args env st1 rest

/-- The zone loop (lines 119–184): a failed assets listing raises via
`raise_for_status` with no surrounding `try`, killing the whole run. -/
def walkZones (args : Args) (env : ColEnv) : St → List ZoneInfo → Except RunResult St
  | st, [] => .ok st
  | st, z :: zs =>
    match z.assetsResp with
    | .error _ => .error ⟨st.calls, st.count, .uncaught⟩
    | .ok assets =>
      match walkAssets args env st assets with
      | .error r => .error r
      | .ok st1 => walkZones args env st1 zs

/-- `main()` of `aspect_attach_column.py` after authentication: list zones
(uncaught exception on failure), walk the hierarchy, and derive the final
verdict from `success_count` (lines 186–190). -/
def colMain (args : Args) (env : ColEnv) : RunResult :=
  match env.zonesResp with
  | .error _ => ⟨[], 0, .uncaught⟩
  | .ok zones =>
    match walkZones args env ⟨[], 0⟩ zones with
    | .error r => r
    | .ok st => ⟨st.calls, st.count, if st.count = 0 then .exitCode 1 else .exitCode 0⟩

/-- The whole script: module-level aspect resolution (which `sys.exit(1)`s
before any network call on an empty or invalid selection), then `main()`. -/
def colProgram (cat : AspectCatalog) (args : Args) (env : ColEnv) : RunResult :=
  match resolveAspects cat args.aspects with
  | .ok _ => colMain args env
  | _ => ⟨[], 0, .exitCode 1⟩

/-! ## Run model of `aspect_attach.py` -/

/-- The parsed command line of `aspect_attach.py` (no entry kind: it always
attaches at table granularity). -/
structure Args1 where
  lake : PyStr
  asset : Option PyStr
  table : Option PyStr
  aspects : PyStr

/-- The external world of `aspect_attach.py`: whether the lake GET
succeeds, the zones listing, dataset lookups (`get_dataset`, whose
exceptions are only caught by the walk-terminating outer handler), table
listings, and the HTTP outcome of each attachment. -/
structure LakeEnv where
  lakeOk : Bool
  zonesResp : Except Unit (List ZoneInfo)
  getDataset : PyStr → PyStr → Except Unit PyStr
  listTables : PyStr → PyStr → Except Unit (List TableInfo)
  attachOk : AttachCall → Bool

/-- Observable result of a run of `aspect_attach.py`: the attachment calls
issued and the process exit code. There is no success counter: the
function body never inspects attachment outcomes. -/
structure Run1Result where
  calls : List AttachCall
  exitCode : Nat
deriving DecidableEq

/-- Table loop of `aspect_attach.py` (lines 162–166): filter on the table
id, attach unconditionally; failures are only printed. -/
def walk1Tables (tf : Option PyStr) (proj ds : PyStr) :
    List AttachCall → List TableInfo → List AttachCall
  | acc, [] => acc
  | acc, t :: ts =>
    if truthy tf ∧ t.table_id ≠ tf.getD [] then walk1Tables tf proj ds acc ts
    else walk1Tables tf proj ds (acc ++ [⟨proj, ds, some t.table_id, none⟩]) ts

/-- Asset loop of `aspect_attach.py` (lines 139–168). Any exception —
missing resource path (`AttributeError`), too few path components
(`IndexError`), `get_dataset` or `list_tables` failure — propagates to the
single outer handler (lines 170–174), ending the whole walk; `.error`
carries the calls issued up to that point. -/
def walk1Assets (af tf : Option PyStr) (env : LakeEnv) :
    List AttachCall → List AssetInfo → Except (List AttachCall) (List AttachCall)
  | acc, [] => .ok acc
  | acc, a :: rest =>
    if truthy af ∧ lastComponent a.name ≠ af.getD [] then walk1Assets af tf env acc rest
    else if a.rtype = some "BIGQUERY_DATASET".data then
      match a.resource with
      | none => .error acc
      | some r =>
        let parts := splitOnChar '/' (stripBqService r)
        if parts.length < 4 then .error acc
        else
          let proj := parts.getD 1 []
          let ds := parts.getD 3 []
          match env.getDataset proj ds with
          | .error _ => .error acc
          | .ok _loc =>
            match env.listTables proj ds with
            | .error _ => .error acc
            | .ok tabs => walk1Assets af tf env (walk1Tables tf proj ds acc tabs) rest
    else walk1Assets af tf env acc rest

/-- Zone loop of `aspect_attach.py` (lines 127–168): a failed assets
listing raises, is caught by the outer handler, and terminates the walk. -/
def walk1Zones (af tf : Option PyStr) (env : LakeEnv) :
    List AttachCall → List ZoneInfo → Except (List AttachCall) (List AttachCall)
  | acc, [] => .ok acc
  | acc, z :: zs =>
    match z.assetsResp with
    | .error _ => .error acc
    | .ok assets =>
      match walk1Assets af tf env acc assets with
      | .error acc1 => .error acc1
      | .ok acc1 => walk1Zones af tf env acc1 zs

/-- `list_dataplex_assets_safely()` (lines 96–174): the whole walk sits in
one `try`; every caught exception just prints and returns, so the function
always completes and the process exits 0. The script never counts
successes and never calls `sys.exit` after resolution. -/
def lakeMain (args : Args1) (env : LakeEnv) : Run1Result :=
  let af := args.asset.map pyStrip
  let tf := args.table.map pyStrip
  if !env.lakeOk then ⟨[], 0⟩
  else
    match env.zonesResp with
    | .error _ => ⟨[], 0⟩
    | .ok zones =>
      match walk1Zones af tf env [] zones with
      | .error calls => ⟨calls, 0⟩
      | .ok calls => ⟨calls, 0⟩

/-- The whole of `aspect_attach.py`: module-level resolution (exit 1 on an
empty or invalid aspect selection), then the walk, then exit 0. -/
def lakeProgram (cat : AspectCatalog) (args : Args1) (env : LakeEnv) : Run1Result :=
  match resolveAspects cat args.aspects with
  | .ok _ => lakeMain args env
  | _ => ⟨[], 1⟩

/-! ## Expected calls of one asset (mirror used to characterize the walk) -/

/-- The assets listed for a zone, defaulting to `[]` on a listing error
(only used under hypotheses that exclude the error case). -/
def zoneAssets (z : ZoneInfo) : List AssetInfo :=
  match z.assetsResp with
  | .error _ => []
  | .ok as => as

/-- The attachment calls `aspect_attach_column.py` issues for one table of
a dataset-backed asset, assuming the walk does not abort there. -/
def tableCalls (args : Args) (env : ColEnv) (proj ds : PyStr) (t : TableInfo) :
    List AttachCall :=
  if truthy args.table ∧ t.table_id ≠ args.table.getD [] then []
  else
    match args.entry_type with
    | .asset => []
    | .table =>
      AttachCall.mk proj ds (some t.table_id) none ::
        (if args.include_columns then
          match env.getTable proj ds t.table_id with
          | .error _ => []
          | .ok fields => fields.map (fun f => AttachCall.mk proj ds (some t.table_id) (some f))
        else [])
    | .column =>
      if truthy args.column then [AttachCall.mk proj ds (some t.table_id) (some (args.column.getD []))]
      else []

/-- The attachment calls `aspect_attach_column.py` issues while processing
one asset, assuming the walk does not abort inside it. -/
def assetCalls (args : Args) (env : ColEnv) (a : AssetInfo) : List AttachCall :=
  if truthy args.asset ∧ lastComponent a.name ≠ args.asset.getD [] then []
  else
    match parseResource a with
    | none => []
    | some (proj, ds) =>
      match args.entry_type with
      | .asset => [AttachCall.mk proj ds none none]
      | _ =>
        if a.rtype = some "BIGQUERY_DATASET".data then
          match env.listTables proj ds with
          | .error _ => []
          | .ok tabs => tabs.flatMap (tableCalls args env proj ds)
        else []

/-- Extraction of the BigQuery project and dataset from an asset's
resource path as `aspect_attach.py` performs it (lines 148–152): `none`
when the resource is missing or splits into fewer than 4 components —
situations where that script raises and the walk terminates (it has no
exact-4 check; extra components beyond `parts[3]` are ignored). -/
def parse1Resource (a : AssetInfo) : Option (PyStr × PyStr) :=
  match a.resource with
  | none => none
  | some r =>
    let parts := splitOnChar '/' (stripBqService r)
    if parts.length < 4 then none
    else some (parts.getD 1 [], parts.getD 3 [])

/-- The attachment calls `aspect_attach.py` issues for one listed table:
table filter, then one table-granularity call. -/
def tableCalls1 (tf : Option PyStr) (proj ds : PyStr) (t : TableInfo) : List AttachCall :=
  if truthy tf ∧ t.table_id ≠ tf.getD [] then []
  else [AttachCall.mk proj ds (some t.table_id) none]

/-- The attachment calls `aspect_attach.py` issues while processing one
asset, assuming the walk does not terminate inside it: asset filter, then
only `BIGQUERY_DATASET` assets are descended into. -/
def asset1Calls (af tf : Option PyStr) (env : LakeEnv) (a : AssetInfo) : List AttachCall :=
  if truthy af ∧ lastComponent a.name ≠ af.getD [] then []
  else if a.rtype = some "BIGQUERY_DATASET".data then
    match parse1Resource a with
    | none => []
    | some (proj, ds) =>
      match env.listTables proj ds with
      | .error _ => []
      | .ok tabs => tabs.flatMap (tableCalls1 tf proj ds)
  else []

/-- Join a token list back into a comma-separated selection string. -/
def intercalateComma : List PyStr → PyStr
  | [] => []
  | [t] => t
  | t :: ts => t ++ ',' :: intercalateComma ts

/-! ## Concrete runs used by witnesses and counterexamples -/

/-- Catalog with the single aspect `a`, used by several concrete runs. -/
def oneAspectCat : AspectCatalog := ⟨[], ["a".data]⟩

/-- `aspect_attach.py` arguments: lake `lk`, no filters, selection `a`. -/
def lakeArgsNoFilter : Args1 := ⟨"lk".data, none, none, "a".data⟩

/-- A world with one zone, one dataset-backed asset and one table, where
every PATCH attachment fails (non-200 response). -/
def lakeEnvAllFail : LakeEnv :=
  { lakeOk := true
    zonesResp := .ok [⟨"projects/x/locations/l/lakes/lk/zones/z1".data,
      .ok [⟨"projects/x/locations/l/lakes/lk/zones/z1/assets/ds1".data,
            some "BIGQUERY_DATASET".data,
            some "//bigquery.googleapis.com/projects/p/datasets/d".data⟩]⟩]
    getDataset := fun _ _ => .ok "us".data
    listTables := fun _ _ => .ok [⟨"t1".data⟩]
    attachOk := fun _ => false }

/-- Table-mode arguments for `aspect_attach_column.py`: no filters. -/
def colArgsTable : Args := ⟨.table, "lk".data, none, none, none, "a".data, false⟩

/-- The single zone / single asset world backing the partial-failure
example: three tables, attachments succeed except on table `t3`. -/
def colZonesThreeTables : List ZoneInfo :=
  [⟨"projects/x/locations/l/lakes/lk/zones/z1".data,
    .ok [⟨"projects/x/locations/l/lakes/lk/zones/z1/assets/ds1".data,
          some "BIGQUERY_DATASET".data,
          some "//bigquery.googleapis.com/projects/p/datasets/d".data⟩]⟩]

/-- Environment with three discovered tables of which `t3` fails to attach. -/
def colEnvPartialFailure : ColEnv :=
  { zonesResp := .ok colZonesThreeTables
    listTables := fun _ _ => .ok [⟨"t1".data⟩, ⟨"t2".data⟩, ⟨"t3".data⟩]
    getTable := fun _ _ _ => .ok []
    attachOk := fun c => decide (c.table ≠ some "t3".data) }

/-- The walk state after the partial-failure run: three calls, two
successes. -/
def stPartialFailure : St :=
  ⟨[⟨"p".data, "d".data, some "t1".data, none⟩,
    ⟨"p".data, "d".data, some "t2".data, none⟩,
    ⟨"p".data, "d".data, some "t3".data, none⟩], 2⟩

/-- A world with two zones: listing the first zone's assets fails with an
HTTP error, the second zone holds an attachable dataset-backed asset. -/
def colEnvBadZoneFirst : ColEnv :=
  { zonesResp := .ok
      [⟨"projects/x/locations/l/lakes/lk/zones/z1".data, .error ()⟩,
       ⟨"projects/x/locations/l/lakes/lk/zones/z2".data,
        .ok [⟨"projects/x/locations/l/lakes/lk/zones/z2/assets/ds1".data,
              some "BIGQUERY_DATASET".data,
              some "//bigquery.googleapis.com/projects/p/datasets/d".data⟩]⟩]
    listTables := fun _ _ => .ok [⟨"t1".data⟩]
    getTable := fun _ _ _ => .ok []
    attachOk := fun _ => true }

/-- The same world with the failing first zone removed. -/
def colEnvGoodZoneOnly : ColEnv :=
  { zonesResp := .ok
      [⟨"projects/x/locations/l/lakes/lk/zones/z2".data,
        .ok [⟨"projects/x/locations/l/lakes/lk/zones/z2/assets/ds1".data,
              some "BIGQUERY_DATASET".data,
              some "//bigquery.googleapis.com/projects/p/datasets/d".data⟩]⟩]
    listTables := fun _ _ => .ok [⟨"t1".data⟩]
    getTable := fun _ _ _ => .ok []
    attachOk := fun _ => true }

/-- A dataset-backed asset whose resource path parses to `(p, d)`. -/
def assetPd : AssetInfo :=
  ⟨"projects/x/locations/l/lakes/lk/zones/z1/assets/ds1".data,
   some "BIGQUERY_DATASET".data,
   some "//bigquery.googleapis.com/projects/p/datasets/d".data⟩

/-- A world whose tables listing always raises `NotFound`. -/
def colEnvTablesNotFound : ColEnv :=
  { zonesResp := .ok [⟨"projects/x/locations/l/lakes/lk/zones/z1".data, .ok [assetPd]⟩]
    listTables := fun _ _ => .error ()
    getTable := fun _ _ _ => .ok []
    attachOk := fun _ => true }

/-- Column-kind arguments with a column name but no table filter. -/
def colArgsColumnNoTable : Args :=
  ⟨.column, "lk".data, none, none, some "c1".data, "a".data, false⟩

/-- A world with one dataset-backed asset holding two tables, where every
attachment succeeds. -/
def colEnvTwoTables : ColEnv :=
  { zonesResp := .ok [⟨"projects/x/locations/l/lakes/lk/zones/z1".data, .ok [assetPd]⟩]
    listTables := fun _ _ => .ok [⟨"t1".data⟩, ⟨"t2".data⟩]
    getTable := fun _ _ _ => .ok []
    attachOk := fun _ => true }

/-- Table-mode arguments with asset filter `ds1` and table filter `t2`. -/
def colArgsBothFilters : Args :=
  ⟨.table, "lk".data, some "ds1".data, some "t2".data, none, "a".data, false⟩

/-- The asset `ds1`, backing dataset `d1`. -/
def assetDs1 : AssetInfo :=
  ⟨"projects/x/locations/l/lakes/lk/zones/z1/assets/ds1".data,
   some "BIGQUERY_DATASET".data,
   some "//bigquery.googleapis.com/projects/p/datasets/d1".data⟩

/-- The zone of the two-asset world: `ds1` → dataset `d1`, `ds2` →
dataset `d2`, both dataset-backed. -/
def zoneTwoAssets : ZoneInfo :=
  ⟨"projects/x/locations/l/lakes/lk/zones/z1".data,
   .ok [assetDs1,
        ⟨"projects/x/locations/l/lakes/lk/zones/z1/assets/ds2".data,
         some "BIGQUERY_DATASET".data,
         some "//bigquery.googleapis.com/projects/p/datasets/d2".data⟩]⟩

def zonesTwoAssets : List ZoneInfo := [zoneTwoAssets]

/-- A world with two dataset-backed assets (`ds1` → dataset `d1` with
tables `t1`,`t2`; `ds2` → dataset `d2` with table `t2`). -/
def colEnvTwoAssets : ColEnv :=
  { zonesResp := .ok zonesTwoAssets
    listTables := fun _ d => if d = "d1".data then .ok [⟨"t1".data⟩, ⟨"t2".data⟩]
      else .ok [⟨"t2".data⟩]
    getTable := fun _ _ _ => .ok []
    attachOk := fun _ => true }

/-- `aspect_attach.py` arguments with asset filter `ds1` and table filter
`t2`. -/
def lakeArgsBothFilters : Args1 :=
  ⟨"lk".data, some "ds1".data, some "t2".data, "a".data⟩

/-- The two-asset world of `zonesTwoAssets` as seen by `aspect_attach.py`
(same zones and tables, plus successful dataset lookups). -/
def lakeEnvTwoAssets : LakeEnv :=
  { lakeOk := true
    zonesResp := .ok zonesTwoAssets
    getDataset := fun _ _ => .ok "us".data
    listTables := fun _ d => if d = "d1".data then .ok [⟨"t1".data⟩, ⟨"t2".data⟩]
      else .ok [⟨"t2".data⟩]
    attachOk := fun _ => true }

/-- Asset-kind arguments with no filters. -/
def colArgsAsset : Args := ⟨.asset, "lk".data, none, none, none, "a".data, false⟩

/-- A storage-bucket asset whose resource path happens to split into the
4-component form the scripts expect of datasets. -/
def bucketAsset : AssetInfo :=
  ⟨"projects/x/locations/l/lakes/lk/zones/z1/assets/bk1".data,
   some "STORAGE_BUCKET".data,
   some "projects/p/buckets/b".data⟩

/-- The zone list holding only the storage-bucket asset. -/
def zonesBucket : List ZoneInfo :=
  [⟨"projects/x/locations/l/lakes/lk/zones/z1".data, .ok [bucketAsset]⟩]

/-- A world holding only the storage-bucket asset. -/
def colEnvBucket : ColEnv :=
  { zonesResp := .ok zonesBucket
    listTables := fun _ _ => .ok []
    getTable := fun _ _ _ => .ok []
    attachOk := fun _ => true }

/-! ## Theorems -/

theorem containsStr_iff (l : List PyStr) (a : PyStr) : containsStr l a = true ↔ a ∈ l := by
  induction l with
  | nil => simp [containsStr]
  | cons x xs ih =>
    simp only [containsStr]
    by_cases h : x = a
    · subst h; simp
    · rw [if_neg h, ih, List.mem_cons]
      constructor
      · exact Or.inr
      · rintro (rfl | hm)
        · exact absurd rfl h
        · exact hm

theorem pyDedupGo_congr (l : List PyStr) :
    ∀ s1 s2, (∀ a, containsStr s1 a = containsStr s2 a) → pyDedupGo s1 l = pyDedupGo s2 l := by
  induction l with
  | nil => intro s1 s2 _; rfl
  | cons x xs ih =>
    intro s1 s2 h
    simp only [pyDedupGo, h x]
    by_cases hx : containsStr s2 x = true
    · rw [if_pos hx, if_pos hx]; exact ih s1 s2 h
    · rw [if_neg hx, if_neg hx]
      congr 1
      refine ih _ _ (fun a => ?_)
      simp only [containsStr]
      by_cases hxa : x = a
      · simp [hxa]
      · simp [hxa, h a]

theorem mem_pyDedupGo (l : List PyStr) :
    ∀ seen a, a ∈ pyDedupGo seen l ↔ a ∈ l ∧ ¬ a ∈ seen := by
  induction l with
  | nil => intro seen a; simp [pyDedupGo]
  | cons x xs ih =>
    intro seen a
    simp only [pyDedupGo]
    by_cases hx : containsStr seen x = true
    · rw [if_pos hx, ih]
      have hxs : x ∈ seen := (containsStr_iff _ _).1 hx
      simp only [List.mem_cons]
      constructor
      · rintro ⟨h1, h2⟩; exact ⟨Or.inr h1, h2⟩
      · rintro ⟨h1 | h1, h2⟩
        · subst h1; exact absurd hxs h2
        · exact ⟨h1, h2⟩
    · rw [if_neg hx]
      have hxs : ¬ x ∈ seen := fun hm => hx ((containsStr_iff _ _).2 hm)
      simp only [List.mem_cons, ih, List.mem_cons]
      constructor
      · rintro (rfl | ⟨h1, h2⟩)
        · exact ⟨Or.inl rfl, hxs⟩
        · constructor
          · exact Or.inr h1
          · intro hm; exact h2 (Or.inr hm)
      · rintro ⟨h1 | h1, h2⟩
        · subst h1; exact Or.inl rfl
        · by_cases hax : a = x
          · exact Or.inl hax
          · refine Or.inr ⟨h1, ?_⟩
            intro hm
            rcases hm with hm | hm
            · exact hax hm
            · exact h2 hm

theorem nodup_pyDedupGo (l : List PyStr) : ∀ seen, (pyDedupGo seen l).Nodup := by
  induction l with
  | nil => intro seen; simp [pyDedupGo]
  | cons x xs ih =>
    intro seen
    simp only [pyDedupGo]
    by_cases hx : containsStr seen x = true
    · rw [if_pos hx]; exact ih seen
    · rw [if_neg hx]
      refine List.nodup_cons.2 ⟨?_, ih (x :: seen)⟩
      intro hmem
      exact ((mem_pyDedupGo xs (x :: seen) x).1 hmem).2 (List.mem_cons_self _ _)

theorem sublist_pyDedupGo (l : List PyStr) : ∀ seen, List.Sublist (pyDedupGo seen l) l := by
  induction l with
  | nil => intro seen; simp [pyDedupGo]
  | cons x xs ih =>
    intro seen
    simp only [pyDedupGo]
    by_cases hx : containsStr seen x = true
    · rw [if_pos hx]; exact (ih seen).cons x
    · rw [if_neg hx]; exact (ih (x :: seen)).cons₂ x

theorem pyDedupGo_filter (xs : List PyStr) :
    ∀ seen x, pyDedupGo (x :: seen) xs = pyDedupGo seen (xs.filter (fun a => a ≠ x)) := by
  induction xs with
  | nil => intro seen x; simp [pyDedupGo]
  | cons y ys ih =>
    intro seen x
    by_cases hxy : y = x
    · subst hxy
      have hdy : (decide (y ≠ y)) = false := by simp
      simp only [pyDedupGo, containsStr, List.filter_cons, if_pos rfl, hdy,
        Bool.false_eq_true, if_false]
      exact ih seen y
    · have hc : containsStr (x :: seen) y = containsStr seen y := by
        simp only [containsStr]
        rw [if_neg (fun h => hxy h.symm)]
      simp only [List.filter_cons]
      have hd : (decide (y ≠ x)) = true := by simp [hxy]
      rw [hd, if_pos rfl]
      by_cases hy : containsStr seen y = true
      · simp only [pyDedupGo, hc, hy, if_pos rfl]
        exact ih seen x
      · simp only [pyDedupGo, hc]
        rw [if_neg hy, if_neg hy]
        congr 1
        conv_rhs => rw [← ih (y :: seen) x]
        apply pyDedupGo_congr
        intro a
        simp only [containsStr]
        by_cases h1 : x = a <;> by_cases h2 : y = a <;> simp [h1, h2]

theorem pyDedup_cons (x : PyStr) (xs : List PyStr) :
    pyDedup (x :: xs) = x :: pyDedup (xs.filter (fun a => a ≠ x)) := by
  show pyDedupGo [] (x :: xs) = _
  simp only [pyDedupGo, containsStr, Bool.false_eq_true, if_false]
  rw [pyDedupGo_filter]
  rfl

theorem dropWhile_rdropWhile_comm (p : Char → Bool) (l : List Char) :
    List.dropWhile p (List.rdropWhile p l) = List.rdropWhile p (List.dropWhile p l) := by
  induction l using List.reverseRecOn with
  | nil => simp
  | append_singleton xs x ih =>
    by_cases hx : p x
    · rw [List.rdropWhile_concat_pos p xs x hx]
      by_cases he : List.dropWhile p xs = []
      · have h1 : List.rdropWhile p xs = [] :=
          List.rdropWhile_eq_nil_iff.2 (List.dropWhile_eq_nil_iff.1 he)
        rw [h1, List.dropWhile_append]
        simp [he, hx]
      · rw [List.dropWhile_append]
        have h2 : (List.dropWhile p xs).isEmpty = false := by
          simpa using he
        rw [h2]
        simp only [Bool.false_eq_true, if_false]
        rw [List.rdropWhile_concat_pos p _ x hx]
        exact ih
    · rw [List.rdropWhile_concat_neg p xs x hx]
      by_cases he : List.dropWhile p xs = []
      · rw [List.dropWhile_append]
        simp [he, hx, List.rdropWhile_singleton]
      · rw [List.dropWhile_append]
        have h2 : (List.dropWhile p xs).isEmpty = false := by
          simpa using he
        rw [h2]
        simp only [Bool.false_eq_true, if_false]
        rw [List.rdropWhile_concat_neg p _ x hx]

theorem pyStrip_eq (s : PyStr) :
    pyStrip s = List.rdropWhile isPySpace (List.dropWhile isPySpace s) := rfl

theorem pyStrip_idem (s : PyStr) : pyStrip (pyStrip s) = pyStrip s := by
  rw [pyStrip_eq, pyStrip_eq, dropWhile_rdropWhile_comm, List.dropWhile_idempotent,
    List.rdropWhile_idempotent]

theorem mem_of_mem_dropWhile (p : Char → Bool) (l : List Char) (c : Char)
    (h : c ∈ List.dropWhile p l) : c ∈ l := by
  induction l with
  | nil => simp at h
  | cons x xs ih =>
    rw [List.dropWhile_cons] at h
    by_cases hx : p x
    · rw [if_pos hx] at h
      exact List.mem_cons_of_mem _ (ih h)
    · rw [if_neg hx] at h
      exact h

theorem mem_pyStrip (s : PyStr) (c : Char) (h : c ∈ pyStrip s) : c ∈ s := by
  rw [pyStrip_eq, List.rdropWhile] at h
  rw [List.mem_reverse] at h
  have h1 := mem_of_mem_dropWhile _ _ _ h
  rw [List.mem_reverse] at h1
  exact mem_of_mem_dropWhile _ _ _ h1

theorem pyStrip_eq_nil (t : PyStr) (h : ∀ c ∈ t, isPySpace c = true) : pyStrip t = [] := by
  rw [pyStrip_eq, List.dropWhile_eq_nil_iff.2 h, List.rdropWhile_nil]

theorem splitOnChar_shape (sep : Char) (s : PyStr) :
    ∃ t ts, splitOnChar sep s = t :: ts := by
  induction s with
  | nil => exact ⟨[], [], rfl⟩
  | cons c cs ih =>
    obtain ⟨t, ts, hts⟩ := ih
    by_cases hc : c = sep
    · exact ⟨[], splitOnChar sep cs, by simp [splitOnChar, hc]⟩
    · exact ⟨c :: t, ts, by simp [splitOnChar, hc, hts]⟩

theorem mem_splitOnChar (sep : Char) (s : PyStr) :
    ∀ t ∈ splitOnChar sep s, ∀ c ∈ t, c ∈ s ∧ ¬ c = sep := by
  induction s with
  | nil =>
    intro t ht c hc
    simp only [splitOnChar, List.mem_singleton] at ht
    subst ht
    simp at hc
  | cons x xs ih =>
    intro t ht c hc
    by_cases hx : x = sep
    · rw [show splitOnChar sep (x :: xs) = [] :: splitOnChar sep xs by simp [splitOnChar, hx]] at ht
      rcases List.mem_cons.1 ht with rfl | ht2
      · simp at hc
      · obtain ⟨h1, h2⟩ := ih t ht2 c hc
        exact ⟨List.mem_cons_of_mem _ h1, h2⟩
    · obtain ⟨u, us, hus⟩ := splitOnChar_shape sep xs
      rw [show splitOnChar sep (x :: xs) = (x :: u) :: us by simp [splitOnChar, hx, hus]] at ht
      rcases List.mem_cons.1 ht with rfl | ht2
      · rcases List.mem_cons.1 hc with rfl | hc2
        · exact ⟨List.mem_cons_self _ _, hx⟩
        · obtain ⟨h1, h2⟩ := ih u (hus ▸ List.mem_cons_self _ _) c hc2
          exact ⟨List.mem_cons_of_mem _ h1, h2⟩
      · obtain ⟨h1, h2⟩ := ih t (hus ▸ List.mem_cons_of_mem _ ht2) c hc
        exact ⟨List.mem_cons_of_mem _ h1, h2⟩

theorem splitOnChar_single (sep : Char) (t : PyStr) (h : ∀ c ∈ t, ¬ c = sep) :
    splitOnChar sep t = [t] := by
  induction t with
  | nil => rfl
  | cons c cs ih =>
    have hc : ¬ c = sep := h c (List.mem_cons_self _ _)
    have ih2 := ih (fun c2 hc2 => h c2 (List.mem_cons_of_mem _ hc2))
    simp [splitOnChar, hc, ih2]

theorem splitOnChar_append (sep : Char) (t r : PyStr) (h : ∀ c ∈ t, ¬ c = sep) :
    splitOnChar sep (t ++ sep :: r) = t :: splitOnChar sep r := by
  induction t with
  | nil => simp [splitOnChar]
  | cons c cs ih =>
    have hc : ¬ c = sep := h c (List.mem_cons_self _ _)
    have ih2 := ih (fun c2 hc2 => h c2 (List.mem_cons_of_mem _ hc2))
    simp [splitOnChar, hc, ih2]

theorem splitOnChar_intercalate (ts : List PyStr) (hne : ts ≠ [])
    (h : ∀ t ∈ ts, ∀ c ∈ t, ¬ c = ',') :
    splitOnChar ',' (intercalateComma ts) = ts := by
  induction ts with
  | nil => exact absurd rfl hne
  | cons t rest ih =>
    cases rest with
    | nil =>
      show splitOnChar ',' (intercalateComma [t]) = [t]
      rw [show intercalateComma [t] = t from rfl]
      exact splitOnChar_single ',' t (h t (List.mem_cons_self _ _))
    | cons t2 rest2 =>
      rw [show intercalateComma (t :: t2 :: rest2) = t ++ ',' :: intercalateComma (t2 :: rest2)
          from rfl]
      rw [splitOnChar_append ',' t _ (h t (List.mem_cons_self _ _))]
      rw [ih (by simp) (fun u hu c hc => h u (List.mem_cons_of_mem _ hu) c hc)]

theorem inputAspects_tokens (s : PyStr) :
    ∀ t ∈ inputAspects s, pyStrip t = t ∧ t ≠ [] ∧ ∀ c ∈ t, ¬ c = ',' := by
  intro t ht
  unfold inputAspects at ht
  rw [List.mem_filter] at ht
  obtain ⟨hmap, hne⟩ := ht
  rw [List.mem_map] at hmap
  obtain ⟨u, hu, hut⟩ := hmap
  have hstrip : pyStrip t = t := by rw [← hut, pyStrip_idem]
  refine ⟨hstrip, by simpa using hne, ?_⟩
  intro c hc
  rw [← hut] at hc
  exact (mem_splitOnChar ',' s u hu c (mem_pyStrip u c hc)).2

theorem inputAspects_all_space (s : PyStr) (h : ∀ c ∈ s, c = ',' ∨ isPySpace c = true) :
    inputAspects s = [] := by
  unfold inputAspects
  rw [List.filter_eq_nil_iff]
  intro t ht
  rw [List.mem_map] at ht
  obtain ⟨u, hu, hut⟩ := ht
  have hu0 : pyStrip u = [] := by
    apply pyStrip_eq_nil
    intro c hc
    obtain ⟨hcs, hcsep⟩ := mem_splitOnChar ',' s u hu c hc
    rcases h c hcs with h1 | h1
    · exact absurd h1 hcsep
    · exact h1
  rw [← hut, hu0]
  simp

theorem inputAspects_normal (s : PyStr) :
    inputAspects (intercalateComma (inputAspects s)) = inputAspects s := by
  by_cases h : inputAspects s = []
  · rw [h]
    decide
  · have htok := inputAspects_tokens s
    have hsplit := splitOnChar_intercalate (inputAspects s) h
      (fun t ht c hc => (htok t ht).2.2 c hc)
    show ((splitOnChar ',' (intercalateComma (inputAspects s))).map pyStrip).filter _ = _
    rw [hsplit]
    rw [List.map_congr_left (fun t ht => (htok t ht).1), List.map_id']
    exact List.filter_eq_self.mpr (fun a ha => by simpa using (htok a ha).2.1)

/-- C3: aspect-group expansion appends group members in the group's defined
order and keeps literal tokens; deduplication removes exact duplicates
preserving first-occurrence order, so each identifier appears exactly once,
at the position of its first occurrence (illustrated by the
`groupA,idX` example from the spec). -/
theorem expansion_dedup_first_occurrence (cat : AspectCatalog) (s : PyStr) :
    (∀ t ts ms, lookupStr cat.groups t = some ms →
      expandAspects cat.groups (t :: ts) = ms ++ expandAspects cat.groups ts)
    ∧ (∀ t ts, lookupStr cat.groups t = none →
      expandAspects cat.groups (t :: ts) = t :: expandAspects cat.groups ts)
    ∧ expandedAspects cat s = pyDedup (expandAspects cat.groups (inputAspects s))
    ∧ (expandedAspects cat s).Nodup
    ∧ (∀ a, a ∈ expandedAspects cat s ↔ a ∈ expandAspects cat.groups (inputAspects s))
    ∧ List.Sublist (expandedAspects cat s) (expandAspects cat.groups (inputAspects s))
    ∧ (∀ x xs, pyDedup (x :: xs) = x :: pyDedup (xs.filter (fun a => a ≠ x)))
    ∧ expandedAspects ⟨[("groupA".data, ["idX".data, "idY".data])], ["idX".data, "idY".data]⟩
        "groupA,idX".data = ["idX".data, "idY".data] := by
  refine ⟨?_, ?_, rfl, nodup_pyDedupGo _ [], ?_, sublist_pyDedupGo _ [], pyDedup_cons, by decide⟩
  · intro t ts ms h
    simp [expandAspects, h]
  · intro t ts h
    simp [expandAspects, h]
  · intro a
    rw [show expandedAspects cat s = pyDedupGo [] (expandAspects cat.groups (inputAspects s))
        from rfl]
    rw [mem_pyDedupGo]
    simp

/-- C3 witness: the theorem applied at a concrete catalog and selection,
with its inner hypotheses discharged on concrete tokens. -/
theorem expansion_dedup_first_occurrence_witness :
    expandAspects [("g".data, ["x".data, "y".data])] ("g".data :: ["x".data]) =
      ["x".data, "y".data] ++ expandAspects [("g".data, ["x".data, "y".data])] ["x".data] :=
  (expansion_dedup_first_occurrence ⟨[("g".data, ["x".data, "y".data])], ["x".data]⟩
    "g".data).1 "g".data ["x".data] ["x".data, "y".data] (by decide)

/-- C9: selection tokens are stripped of surrounding whitespace and empty
tokens are discarded; re-serializing the token list and re-parsing is the
identity (so whitespace around commas and empty segments never matter);
`"a, b,"` and `"a,b"` resolve identically; a string of only commas and
whitespace yields the empty selection, rejected as a configuration error. -/
theorem tokenization_whitespace_invariance (cat : AspectCatalog) (s : PyStr) :
    inputAspects s = ((splitOnChar ',' s).map pyStrip).filter (fun a => a ≠ [])
    ∧ (∀ t ∈ inputAspects s, pyStrip t = t ∧ t ≠ [])
    ∧ inputAspects (intercalateComma (inputAspects s)) = inputAspects s
    ∧ ((∀ c ∈ s, c = ',' ∨ isPySpace c = true) →
        inputAspects s = [] ∧ resolveAspects cat s = .configError)
    ∧ inputAspects "a, b,".data = inputAspects "a,b".data := by
  refine ⟨rfl, ?_, inputAspects_normal s, ?_, by decide⟩
  · intro t ht
    exact ⟨(inputAspects_tokens s t ht).1, (inputAspects_tokens s t ht).2.1⟩
  · intro h
    have h0 := inputAspects_all_space s h
    exact ⟨h0, by simp [resolveAspects, h0]⟩

/-- C9 witness: the theorem applied at a concrete comma-and-whitespace
selection string, with the inner hypothesis discharged by computation. -/
theorem tokenization_whitespace_invariance_witness :
    inputAspects " , ,, ".data = [] ∧
      resolveAspects ⟨[], ["a".data]⟩ " , ,, ".data = .configError :=
  (tokenization_whitespace_invariance ⟨[], ["a".data]⟩ " , ,, ".data).2.2.2.1 (by decide)

/-- C10: a token that names a group is expanded to the group's members even
when the same token is also an aspect id in the catalog; the literal
interpretation is never used (the catalog's aspect keys are not consulted
during expansion, as the concrete `dual` example shows). -/
theorem group_name_takes_precedence (groups : List (PyStr × List PyStr)) (t : PyStr)
    (ts : List PyStr) (ms : List PyStr) (h : lookupStr groups t = some ms) :
    expandAspects groups (t :: ts) = ms ++ expandAspects groups ts
    ∧ expandedAspects ⟨[("dual".data, ["m1".data, "m2".data])],
        ["dual".data, "m1".data, "m2".data]⟩ "dual".data = ["m1".data, "m2".data] := by
  constructor
  · simp [expandAspects, h]
  · decide

/-- C10 witness: concrete instantiation with `dual` both a group name and a
catalog aspect id. -/
theorem group_name_takes_precedence_witness :
    expandAspects [("dual".data, ["m1".data, "m2".data])] ("dual".data :: []) =
      ["m1".data, "m2".data] ++ expandAspects [("dual".data, ["m1".data, "m2".data])] [] :=
  (group_name_takes_precedence [("dual".data, ["m1".data, "m2".data])] "dual".data []
    ["m1".data, "m2".data] (by decide)).1

/-- C2: when the expanded selection contains identifiers missing from the
catalog, resolution reports exactly the full list of invalid ids and both
scripts exit with code 1 before issuing a single attachment call. -/
theorem unknown_aspects_fail_closed (cat : AspectCatalog) (args : Args) (env : ColEnv)
    (args1 : Args1) (env1 : LakeEnv)
    (h : invalidAspects cat (expandedAspects cat args.aspects) ≠ [])
    (h1 : invalidAspects cat (expandedAspects cat args1.aspects) ≠ []) :
    resolveAspects cat args.aspects =
        .unknownAspects (invalidAspects cat (expandedAspects cat args.aspects))
    ∧ colProgram cat args env = ⟨[], 0, .exitCode 1⟩
    ∧ lakeProgram cat args1 env1 = ⟨[], 1⟩ := by
  have htoks : inputAspects args.aspects ≠ [] := by
    intro he
    apply h
    show List.filter _ (pyDedup (expandAspects cat.groups (inputAspects args.aspects))) = []
    rw [he]
    rfl
  have hres : resolveAspects cat args.aspects =
      .unknownAspects (invalidAspects cat (expandedAspects cat args.aspects)) := by
    simp [resolveAspects, htoks, h]
  refine ⟨hres, by simp [colProgram, hres], ?_⟩
  by_cases ht1 : inputAspects args1.aspects = []
  · simp [lakeProgram, resolveAspects, ht1]
  · simp [lakeProgram, resolveAspects, ht1, h1]

/-- C2 witness: a catalog without `b` and the selection `b`: resolution
reports `[b]` and both scripts exit 1 with no attachment calls. -/
theorem unknown_aspects_fail_closed_witness :
    resolveAspects ⟨[], ["a".data]⟩ "b".data = .unknownAspects ["b".data]
    ∧ colProgram ⟨[], ["a".data]⟩ ⟨.table, "lk".data, none, none, none, "b".data, false⟩
        ⟨.ok [], fun _ _ => .ok [], fun _ _ _ => .ok [], fun _ => true⟩ = ⟨[], 0, .exitCode 1⟩
    ∧ lakeProgram ⟨[], ["a".data]⟩ ⟨"lk".data, none, none, "b".data⟩
        ⟨true, .ok [], fun _ _ => .ok [], fun _ _ => .ok [], fun _ => true⟩ = ⟨[], 1⟩ :=
  unknown_aspects_fail_closed ⟨[], ["a".data]⟩
    ⟨.table, "lk".data, none, none, none, "b".data, false⟩
    ⟨.ok [], fun _ _ => .ok [], fun _ _ _ => .ok [], fun _ => true⟩
    ⟨"lk".data, none, none, "b".data⟩
    ⟨true, .ok [], fun _ _ => .ok [], fun _ _ => .ok [], fun _ => true⟩
    (by decide) (by decide)

theorem pyUnquote_esc (c1 c2 : Char) (r : List Char) :
    pyUnquote ('%' :: c1 :: c2 :: r) =
      if isHexDigitChar c1 && isHexDigitChar c2 then
        (hexVal c1 * 16 + hexVal c2) :: pyUnquote r
      else 37 :: pyUnquote (c1 :: c2 :: r) := rfl

set_option maxRecDepth 4096 in
theorem safe_byte_char (b : Nat) (hb : b < 256) (hs : isQuoteSafeByte b = true) :
    (Char.ofNat b).toNat = b ∧ ¬ (Char.ofNat b = '%') := by
  revert hs
  revert hb
  revert b
  decide

theorem hex_digit_round (n : Nat) (hn : n < 16) :
    isHexDigitChar (hexDigitUpper n) = true ∧ hexVal (hexDigitUpper n) = n := by
  revert hn
  revert n
  decide

theorem pyUnquote_cons (c : Char) (r : List Char) (hc : ¬ c = '%') :
    pyUnquote (c :: r) = c.toNat :: pyUnquote r := by
  conv_lhs => rw [pyUnquote.eq_def]
  simp only []
  rw [if_neg hc]

theorem pyUnquote_pyQuote (bs : List Nat) (h : ∀ b ∈ bs, b < 256) :
    pyUnquote (pyQuote bs) = bs := by
  induction bs with
  | nil => rfl
  | cons b rest ih =>
    have hb : b < 256 := h b (List.mem_cons_self _ _)
    have ih2 := ih (fun x hx => h x (List.mem_cons_of_mem _ hx))
    by_cases hs : isQuoteSafeByte b = true
    · have hchar := safe_byte_char b hb hs
      rw [show pyQuote (b :: rest) = Char.ofNat b :: pyQuote rest by
        simp [pyQuote, quoteByte, hs]]
      rw [pyUnquote_cons _ _ hchar.2, hchar.1, ih2]
    · have hdiv : b / 16 < 16 := by omega
      have hmod : b % 16 < 16 := Nat.mod_lt _ (by omega)
      have h1 := hex_digit_round _ hdiv
      have h2 := hex_digit_round _ hmod
      rw [show pyQuote (b :: rest) =
          '%' :: hexDigitUpper (b / 16) :: hexDigitUpper (b % 16) :: pyQuote rest by
        simp [pyQuote, quoteByte, hs]]
      rw [pyUnquote_esc, if_pos (by rw [h1.1, h2.1]; rfl)]
      rw [h1.2, h2.2, ih2]
      have hrec : b / 16 * 16 + b % 16 = b := by omega
      rw [hrec]

/-- C7: building the encoded entry identifier is deterministic (equal
project/dataset/table inputs give byte-identical encodings) and
percent-decoding the encoded identifier recovers the original un-encoded
identifier string. -/
theorem entry_id_deterministic_round_trip (p d t p2 d2 t2 : List Nat)
    (hp : ∀ b ∈ p, b < 256) (hd : ∀ b ∈ d, b < 256) (ht : ∀ b ∈ t, b < 256)
    (heq : p = p2 ∧ d = d2 ∧ t = t2) :
    encodedEntryId p d t = encodedEntryId p2 d2 t2
    ∧ pyUnquote (encodedEntryId p d t) = entryIdBytes p d t := by
  obtain ⟨rfl, rfl, rfl⟩ := heq
  refine ⟨rfl, ?_⟩
  apply pyUnquote_pyQuote
  have hl1 : ∀ b ∈ strBytes "bigquery.googleapis.com/projects/", b < 256 := by decide
  have hl2 : ∀ b ∈ strBytes "/datasets/", b < 256 := by decide
  have hl3 : ∀ b ∈ strBytes "/tables/", b < 256 := by decide
  intro b hb
  unfold entryIdBytes at hb
  simp only [List.append_assoc, List.mem_append] at hb
  rcases hb with hb | hb | hb | hb | hb | hb
  · exact hl1 b hb
  · exact hp b hb
  · exact hl2 b hb
  · exact hd b hb
  · exact hl3 b hb
  · exact ht b hb

/-- C7 witness: a concrete identifier whose table name contains a space;
the encoding is reproducible and decodes back to the original identifier. -/
theorem entry_id_deterministic_round_trip_witness :
    encodedEntryId (strBytes "p") (strBytes "d") (strBytes "t 1") =
        encodedEntryId (strBytes "p") (strBytes "d") (strBytes "t 1")
    ∧ pyUnquote (encodedEntryId (strBytes "p") (strBytes "d") (strBytes "t 1")) =
        entryIdBytes (strBytes "p") (strBytes "d") (strBytes "t 1") :=
  entry_id_deterministic_round_trip (strBytes "p") (strBytes "d") (strBytes "t 1")
    (strBytes "p") (strBytes "d") (strBytes "t 1")
    (by decide) (by decide) (by decide) ⟨rfl, rfl, rfl⟩

/-- C1 counterexample: `aspect_attach.py` issues one attachment, the PATCH
fails (so zero attempts succeeded), yet the run exits 0 — the script has no
success counter, refuting the claim that zero successes give exit code 1. -/
theorem zero_success_exit_counterexample :
    lakeProgram oneAspectCat lakeArgsNoFilter lakeEnvAllFail =
      ⟨[⟨"p".data, "d".data, some "t1".data, none⟩], 0⟩
    ∧ lakeEnvAllFail.attachOk ⟨"p".data, "d".data, some "t1".data, none⟩ = false := by
  constructor
  · rfl
  · rfl

/-- C1 (amended): in `aspect_attach_column.py`, for every run whose walk
completes, the verdict is derived solely from `success_count` (zero
successes ⇒ exit 1, at least one ⇒ exit 0, even if other attempts failed);
`aspect_attach.py` ends with exit code 0 after resolution regardless of
attachment outcomes. -/
theorem success_count_verdict (args : Args) (env : ColEnv) (zones : List ZoneInfo) (st : St)
    (cat : AspectCatalog) (args1 : Args1) (env1 : LakeEnv) (r : List PyStr)
    (hz : env.zonesResp = .ok zones)
    (hw : walkZones args env ⟨[], 0⟩ zones = .ok st)
    (hres1 : resolveAspects cat args1.aspects = .ok r) :
    ((colMain args env).succ = st.count
      ∧ ((colMain args env).outcome = .exitCode 0 ↔ 1 ≤ st.count)
      ∧ ((colMain args env).outcome = .exitCode 1 ↔ st.count = 0))
    ∧ (lakeProgram cat args1 env1).exitCode = 0 := by
  constructor
  · rw [show colMain args env =
        ⟨st.calls, st.count, if st.count = 0 then .exitCode 1 else .exitCode 0⟩ by
      simp [colMain, hz, hw]]
    by_cases hc : st.count = 0
    · simp [hc]
    · simp [hc, Nat.one_le_iff_ne_zero]
  · rw [show lakeProgram cat args1 env1 = lakeMain args1 env1 by simp [lakeProgram, hres1]]
    simp only [lakeMain]
    split
    · rfl
    · split
      · rfl
      · split <;> rfl

/-- C1 witness: the spec's partial-failure aggregation example — three
discovered entries, two succeed, one fails: overall success (exit 0) with
success-count 2. -/
theorem success_count_verdict_witness :
    (((colMain colArgsTable colEnvPartialFailure).succ = stPartialFailure.count
      ∧ ((colMain colArgsTable colEnvPartialFailure).outcome = .exitCode 0 ↔
          1 ≤ stPartialFailure.count)
      ∧ ((colMain colArgsTable colEnvPartialFailure).outcome = .exitCode 1 ↔
          stPartialFailure.count = 0))
    ∧ (lakeProgram oneAspectCat lakeArgsNoFilter lakeEnvAllFail).exitCode = 0) :=
  success_count_verdict colArgsTable colEnvPartialFailure colZonesThreeTables
    stPartialFailure oneAspectCat lakeArgsNoFilter lakeEnvAllFail ["a".data]
    rfl rfl rfl

/-- C5 counterexample: an assets-listing failure on the first zone does not
skip that zone — `raise_for_status` raises with no handler, the run dies
uncaught, no attachment is issued; without the failing zone the very same
world attaches the second zone's table. The claim that the walk continues
over remaining zones is refuted. -/
theorem listing_failure_aborts_counterexample :
    colProgram oneAspectCat colArgsTable colEnvBadZoneFirst = ⟨[], 0, .uncaught⟩
    ∧ colProgram oneAspectCat colArgsTable colEnvGoodZoneOnly =
        ⟨[⟨"p".data, "d".data, some "t1".data, none⟩], 1, .exitCode 0⟩ := by
  constructor
  · rfl
  · rfl

/-- C5 (amended): only a `NotFound` from listing a dataset's tables is
treated as "skip this branch" (the asset is skipped, the walk continues);
an error listing a zone's assets instead aborts the remaining walk — as an
uncaught exception in `aspect_attach_column.py`, and by terminating the
whole traversal (with exit code 0) through the single outer handler in
`aspect_attach.py`. -/
theorem tables_notfound_skips_branch (args : Args) (env : ColEnv) (st : St)
    (a : AssetInfo) (rest : List AssetInfo) (proj ds : PyStr)
    (zname : PyStr) (zs : List ZoneInfo)
    (af tf : Option PyStr) (env1 : LakeEnv) (acc : List AttachCall)
    (hk : args.entry_type = .table ∨ args.entry_type = .column)
    (hp : parseResource a = some (proj, ds))
    (ht : env.listTables proj ds = .error ()) :
    procAsset args env st a = .ok st
    ∧ walkAssets args env st (a :: rest) = walkAssets args env st rest
    ∧ walkZones args env st (⟨zname, .error ()⟩ :: zs) =
        .error ⟨st.calls, st.count, .uncaught⟩
    ∧ walk1Zones af tf env1 acc (⟨zname, .error ()⟩ :: zs) = .error acc := by
  have hpa : procAsset args env st a = .ok st := by
    unfold procAsset
    split
    · rfl
    · rw [hp]
      rcases hk with hk | hk <;> rw [hk]
      · simp only []
        split
        · rw [ht]
        · rfl
      · simp only []
        split
        · rw [ht]
        · rfl
  refine ⟨hpa, ?_, rfl, rfl⟩
  conv_lhs => rw [walkAssets, hpa]

/-- C5 witness: the amended theorem instantiated — a `NotFound` tables
listing leaves the walk state untouched and processing continues, while a
zone whose assets listing fails aborts. -/
theorem tables_notfound_skips_branch_witness :
    procAsset colArgsTable colEnvTablesNotFound ⟨[], 0⟩ assetPd = .ok ⟨[], 0⟩
    ∧ walkAssets colArgsTable colEnvTablesNotFound ⟨[], 0⟩ [assetPd] =
        walkAssets colArgsTable colEnvTablesNotFound ⟨[], 0⟩ []
    ∧ walkZones colArgsTable colEnvTablesNotFound ⟨[], 0⟩
        (⟨"z0".data, .error ()⟩ :: []) = .error ⟨[], 0, .uncaught⟩
    ∧ walk1Zones none none lakeEnvAllFail [] (⟨"z0".data, .error ()⟩ :: []) = .error [] :=
  tables_notfound_skips_branch colArgsTable colEnvTablesNotFound ⟨[], 0⟩ assetPd []
    "p".data "d".data "z0".data [] none none lakeEnvAllFail []
    (Or.inl rfl) rfl rfl

/-- C4 counterexample: a column-kind run without a table filter is not
rejected at all — the hierarchy walk proceeds and the named column is
attached on every table of the matching assets (two attachment calls, exit
code 0), refuting the claim of rejection before the walk. -/
theorem column_scope_not_rejected_counterexample :
    colArgsColumnNoTable.table = none
    ∧ colProgram oneAspectCat colArgsColumnNoTable colEnvTwoTables =
        ⟨[⟨"p".data, "d".data, some "t1".data, some "c1".data⟩,
          ⟨"p".data, "d".data, some "t2".data, some "c1".data⟩], 2, .exitCode 0⟩ := by
  constructor
  · rfl
  · rfl

theorem procTable_colNoName (args : Args) (env : ColEnv) (proj ds : PyStr) (st : St)
    (t : TableInfo) (hk : args.entry_type = .column) (hc : truthy args.column = false) :
    procTable args env proj ds st t = .ok st
    ∨ procTable args env proj ds st t = .error ⟨st.calls, st.count, .exitCode 1⟩ := by
  unfold procTable
  split
  · exact Or.inl rfl
  · rw [hk]
    dsimp only
    rw [if_neg (by simp [hc])]
    exact Or.inr rfl

theorem walkTables_colNoName (args : Args) (env : ColEnv) (proj ds : PyStr)
    (hk : args.entry_type = .column) (hc : truthy args.column = false) :
    ∀ (ts : List TableInfo) (st : St),
    walkTables args env proj ds st ts = .ok st
    ∨ walkTables args env proj ds st ts = .error ⟨st.calls, st.count, .exitCode 1⟩ := by
  intro ts
  induction ts with
  | nil => intro st; exact Or.inl rfl
  | cons t ts ih =>
    intro st
    rcases procTable_colNoName args env proj ds st t hk hc with h | h
    · have hstep : walkTables args env proj ds st (t :: ts) =
          walkTables args env proj ds st ts := by
        conv_lhs => rw [walkTables, h]
      rw [hstep]
      exact ih st
    · right
      conv_lhs => rw [walkTables, h]

theorem procAsset_colNoName (args : Args) (env : ColEnv) (st : St) (a : AssetInfo)
    (hk : args.entry_type = .column) (hc : truthy args.column = false) :
    procAsset args env st a = .ok st
    ∨ procAsset args env st a = .error ⟨st.calls, st.count, .exitCode 1⟩ := by
  unfold procAsset
  split
  · exact Or.inl rfl
  · split
    · exact Or.inl rfl
    · rw [hk]
      dsimp only
      split
      · split
        · exact Or.inl rfl
        · exact walkTables_colNoName args env _ _ hk hc _ st
      · exact Or.inl rfl

theorem walkAssets_colNoName (args : Args) (env : ColEnv)
    (hk : args.entry_type = .column) (hc : truthy args.column = false) :
    ∀ (as : List AssetInfo) (st : St),
    walkAssets args env st as = .ok st
    ∨ walkAssets args env st as = .error ⟨st.calls, st.count, .exitCode 1⟩ := by
  intro as
  induction as with
  | nil => intro st; exact Or.inl rfl
  | cons a rest ih =>
    intro st
    rcases procAsset_colNoName args env st a hk hc with h | h
    · have hstep : walkAssets args env st (a :: rest) = walkAssets args env st rest := by
        conv_lhs => rw [walkAssets, h]
      rw [hstep]
      exact ih st
    · right
      conv_lhs => rw [walkAssets, h]

theorem walkZones_colNoName (args : Args) (env : ColEnv)
    (hk : args.entry_type = .column) (hc : truthy args.column = false) :
    ∀ (zs : List ZoneInfo) (st : St),
    walkZones args env st zs = .ok st
    ∨ walkZones args env st zs = .error ⟨st.calls, st.count, .exitCode 1⟩
    ∨ walkZones args env st zs = .error ⟨st.calls, st.count, .uncaught⟩ := by
  intro zs
  induction zs with
  | nil => intro st; exact Or.inl rfl
  | cons z rest ih =>
    intro st
    cases hza : z.assetsResp with
    | error e =>
      refine Or.inr (Or.inr ?_)
      conv_lhs => rw [walkZones, hza]
    | ok as =>
      rcases walkAssets_colNoName args env hk hc as st with h | h
      · have hstep : walkZones args env st (z :: rest) = walkZones args env st rest := by
          simp only [walkZones, hza, h]
        rw [hstep]
        exact ih st
      · refine Or.inr (Or.inl ?_)
        simp only [walkZones, hza, h]

/-- C4 (amended): `aspect_attach_column.py` never rejects a column-kind
scope for lacking a table filter (see the counterexample: the walk runs and
attaches on every table). What is rejected is a column-kind run without a
column name — and only mid-walk, at the first table reached: such a run
issues no attachment call, counts no success, and never exits 0. -/
theorem column_without_name_never_attaches (cat : AspectCatalog) (args : Args) (env : ColEnv)
    (hk : args.entry_type = .column) (hc : truthy args.column = false) :
    (colProgram cat args env).calls = []
    ∧ (colProgram cat args env).succ = 0
    ∧ (colProgram cat args env).outcome ≠ .exitCode 0 := by
  unfold colProgram
  split
  · cases hz : env.zonesResp with
    | error e =>
      have hcm : colMain args env = ⟨[], 0, .uncaught⟩ := by simp [colMain, hz]
      rw [hcm]
      exact ⟨rfl, rfl, by simp⟩
    | ok zones =>
      rcases walkZones_colNoName args env hk hc zones ⟨[], 0⟩ with h | h | h
      · have hcm : colMain args env = ⟨[], 0, .exitCode 1⟩ := by simp [colMain, hz, h]
        rw [hcm]
        exact ⟨rfl, rfl, by simp⟩
      · have hcm : colMain args env = ⟨[], 0, .exitCode 1⟩ := by simp [colMain, hz, h]
        rw [hcm]
        exact ⟨rfl, rfl, by simp⟩
      · have hcm : colMain args env = ⟨[], 0, .uncaught⟩ := by simp [colMain, hz, h]
        rw [hcm]
        exact ⟨rfl, rfl, by simp⟩
  · exact ⟨rfl, rfl, by simp⟩

/-- C4 witness: the amended theorem at a concrete column-kind run with no
column name. -/
theorem column_without_name_never_attaches_witness :
    (colProgram oneAspectCat ⟨.column, "lk".data, none, none, none, "a".data, false⟩
        colEnvTwoTables).calls = []
    ∧ (colProgram oneAspectCat ⟨.column, "lk".data, none, none, none, "a".data, false⟩
        colEnvTwoTables).succ = 0
    ∧ (colProgram oneAspectCat ⟨.column, "lk".data, none, none, none, "a".data, false⟩
        colEnvTwoTables).outcome ≠ .exitCode 0 :=
  column_without_name_never_attaches oneAspectCat
    ⟨.column, "lk".data, none, none, none, "a".data, false⟩ colEnvTwoTables rfl rfl

theorem foldl_pushCall_calls (env : ColEnv) (g : PyStr → AttachCall) :
    ∀ (fields : List PyStr) (st : St),
    (fields.foldl (fun s f => pushCall env s (g f)) st).calls = st.calls ++ fields.map g := by
  intro fields
  induction fields with
  | nil => intro st; simp
  | cons f fs ih =>
    intro st
    rw [List.foldl_cons, ih]
    simp [pushCall]

theorem ok_st_shape (S : St) (A : List AttachCall) (h : S.calls = A) :
    (Except.ok S : Except RunResult St) = .ok ⟨A, S.count⟩ := by
  cases S
  cases h
  rfl

theorem procTable_table_calls (args : Args) (env : ColEnv) (proj ds : PyStr) (st : St)
    (t : TableInfo) (hk : args.entry_type = .table)
    (hg : ∀ p d tid, ∃ fs, env.getTable p d tid = .ok fs) :
    ∃ n, procTable args env proj ds st t =
      .ok ⟨st.calls ++ tableCalls args env proj ds t, n⟩ := by
  unfold procTable tableCalls
  split
  · exact ⟨_, ok_st_shape _ _ (by simp)⟩
  · rw [hk]
    dsimp only
    by_cases hic : args.include_columns
    · rw [if_pos hic, if_pos hic]
      obtain ⟨fs, hfs⟩ := hg proj ds t.table_id
      rw [hfs]
      exact ⟨_, ok_st_shape _ _ (by
        rw [foldl_pushCall_calls env (fun f => ⟨proj, ds, some t.table_id, some f⟩) fs]
        simp [pushCall])⟩
    · rw [if_neg hic, if_neg hic]
      exact ⟨_, ok_st_shape _ _ (by simp [pushCall])⟩

theorem walkTables_calls (args : Args) (env : ColEnv) (proj ds : PyStr)
    (hk : args.entry_type = .table)
    (hg : ∀ p d tid, ∃ fs, env.getTable p d tid = .ok fs) :
    ∀ (ts : List TableInfo) (st : St),
    ∃ n, walkTables args env proj ds st ts =
      .ok ⟨st.calls ++ ts.flatMap (tableCalls args env proj ds), n⟩ := by
  intro ts
  induction ts with
  | nil => intro st; exact ⟨_, ok_st_shape _ _ (by simp)⟩
  | cons t ts ih =>
    intro st
    obtain ⟨n1, h1⟩ := procTable_table_calls args env proj ds st t hk hg
    obtain ⟨n2, h2⟩ := ih ⟨st.calls ++ tableCalls args env proj ds t, n1⟩
    refine ⟨n2, ?_⟩
    have hstep : walkTables args env proj ds st (t :: ts) =
        walkTables args env proj ds ⟨st.calls ++ tableCalls args env proj ds t, n1⟩ ts := by
      simp only [walkTables, h1]
    rw [hstep, h2]
    simp

theorem procAsset_calls (args : Args) (env : ColEnv) (st : St) (a : AssetInfo)
    (hk : args.entry_type = .table ∨ args.entry_type = .asset)
    (hg : ∀ p d tid, ∃ fs, env.getTable p d tid = .ok fs) :
    ∃ n, procAsset args env st a = .ok ⟨st.calls ++ assetCalls args env a, n⟩ := by
  unfold procAsset assetCalls
  split
  · exact ⟨_, ok_st_shape _ _ (by simp)⟩
  · cases hpr : parseResource a with
    | none => exact ⟨_, ok_st_shape _ _ (by simp)⟩
    | some pd =>
      obtain ⟨proj, ds⟩ := pd
      rcases hk with hk | hk
      · rw [hk]
        dsimp only
        split
        · cases hlt : env.listTables proj ds with
          | error e => exact ⟨_, ok_st_shape _ _ (by simp)⟩
          | ok tabs => exact walkTables_calls args env proj ds hk hg tabs st
        · exact ⟨_, ok_st_shape _ _ (by simp)⟩
      · rw [hk]
        dsimp only
        exact ⟨_, ok_st_shape _ _ (by simp [pushCall])⟩

theorem walkAssets_calls (args : Args) (env : ColEnv)
    (hk : args.entry_type = .table ∨ args.entry_type = .asset)
    (hg : ∀ p d tid, ∃ fs, env.getTable p d tid = .ok fs) :
    ∀ (as : List AssetInfo) (st : St),
    ∃ n, walkAssets args env st as =
      .ok ⟨st.calls ++ as.flatMap (assetCalls args env), n⟩ := by
  intro as
  induction as with
  | nil => intro st; exact ⟨_, ok_st_shape _ _ (by simp)⟩
  | cons a rest ih =>
    intro st
    obtain ⟨n1, h1⟩ := procAsset_calls args env st a hk hg
    obtain ⟨n2, h2⟩ := ih ⟨st.calls ++ assetCalls args env a, n1⟩
    refine ⟨n2, ?_⟩
    have hstep : walkAssets args env st (a :: rest) =
        walkAssets args env ⟨st.calls ++ assetCalls args env a, n1⟩ rest := by
      simp only [walkAssets, h1]
    rw [hstep, h2]
    simp

theorem walkZones_calls (args : Args) (env : ColEnv)
    (hk : args.entry_type = .table ∨ args.entry_type = .asset)
    (hg : ∀ p d tid, ∃ fs, env.getTable p d tid = .ok fs) :
    ∀ (zs : List ZoneInfo), (∀ z ∈ zs, ∃ as, z.assetsResp = .ok as) →
    ∀ (st : St),
    ∃ n, walkZones args env st zs =
      .ok ⟨st.calls ++ zs.flatMap (fun z => (zoneAssets z).flatMap (assetCalls args env)), n⟩ := by
  intro zs
  induction zs with
  | nil => intro _ st; exact ⟨_, ok_st_shape _ _ (by simp)⟩
  | cons z rest ih =>
    intro hza st
    obtain ⟨as, haz⟩ := hza z (List.mem_cons_self _ _)
    obtain ⟨n1, h1⟩ := walkAssets_calls args env hk hg as st
    obtain ⟨n2, h2⟩ := ih (fun z2 hz2 => hza z2 (List.mem_cons_of_mem _ hz2))
      ⟨st.calls ++ as.flatMap (assetCalls args env), n1⟩
    refine ⟨n2, ?_⟩
    have hstep : walkZones args env st (z :: rest) =
        walkZones args env ⟨st.calls ++ as.flatMap (assetCalls args env), n1⟩ rest := by
      simp only [walkZones, haz, h1]
    rw [hstep, h2]
    simp [zoneAssets, haz]

theorem colMain_calls (args : Args) (env : ColEnv) (zones : List ZoneInfo)
    (hz : env.zonesResp = .ok zones)
    (hza : ∀ z ∈ zones, ∃ as, z.assetsResp = .ok as)
    (hk : args.entry_type = .table ∨ args.entry_type = .asset)
    (hg : ∀ p d tid, ∃ fs, env.getTable p d tid = .ok fs) :
    (colMain args env).calls =
      zones.flatMap (fun z => (zoneAssets z).flatMap (assetCalls args env)) := by
  obtain ⟨n, hw⟩ := walkZones_calls args env hk hg zones hza ⟨[], 0⟩
  have hcm : colMain args env =
      ⟨zones.flatMap (fun z => (zoneAssets z).flatMap (assetCalls args env)), n,
        if n = 0 then .exitCode 1 else .exitCode 0⟩ := by
    simp only [colMain, hz, hw]
    rfl
  rw [hcm]

theorem mem_tableCalls_table (args : Args) (env : ColEnv) (proj ds : PyStr) (t : TableInfo)
    (p d tid : PyStr) (hk : args.entry_type = .table) (htf : truthy args.table = true) :
    AttachCall.mk p d (some tid) none ∈ tableCalls args env proj ds t ↔
      (p = proj ∧ d = ds ∧ tid = t.table_id ∧ t.table_id = args.table.getD []) := by
  unfold tableCalls
  split
  · rename_i h
    simp only [List.not_mem_nil, false_iff]
    rintro ⟨_, _, _, h4⟩
    exact h.2 h4
  · rename_i h
    have hteq : t.table_id = args.table.getD [] := by
      by_contra hne
      exact h ⟨htf, hne⟩
    rw [hk]
    dsimp only
    have hnc : (AttachCall.mk p d (some tid) none) ∉
        (if args.include_columns then
          match env.getTable proj ds t.table_id with
          | .error _ => []
          | .ok fields => fields.map (fun f => AttachCall.mk proj ds (some t.table_id) (some f))
        else []) := by
      split
      · split
        · simp
        · intro hm
          rw [List.mem_map] at hm
          obtain ⟨f, _, hf⟩ := hm
          exact Option.noConfusion (congrArg AttachCall.column hf)
      · simp
    rw [List.mem_cons]
    constructor
    · rintro (he | hm2)
      · rw [AttachCall.mk.injEq] at he
        obtain ⟨h1, h2, h3, _⟩ := he
        exact ⟨h1, h2, Option.some.inj h3, hteq⟩
      · exact absurd hm2 hnc
    · rintro ⟨rfl, rfl, rfl, _⟩
      exact Or.inl rfl

theorem mem_assetCalls_table (args : Args) (env : ColEnv) (a : AssetInfo) (p d tid : PyStr)
    (hk : args.entry_type = .table) (ha : truthy args.asset = true)
    (htf : truthy args.table = true) :
    AttachCall.mk p d (some tid) none ∈ assetCalls args env a ↔
      (lastComponent a.name = args.asset.getD []
       ∧ parseResource a = some (p, d)
       ∧ a.rtype = some "BIGQUERY_DATASET".data
       ∧ (∃ ts, env.listTables p d = .ok ts ∧ ∃ t ∈ ts, t.table_id = tid)
       ∧ tid = args.table.getD []) := by
  unfold assetCalls
  split
  · rename_i h
    simp only [List.not_mem_nil, false_iff]
    rintro ⟨h1, _⟩
    exact h.2 h1
  · rename_i h
    have hlast : lastComponent a.name = args.asset.getD [] := by
      by_contra hne
      exact h ⟨ha, hne⟩
    cases hpr : parseResource a with
    | none =>
      simp only [List.not_mem_nil, false_iff]
      rintro ⟨_, h2, _⟩
      exact Option.noConfusion h2
    | some pd =>
      obtain ⟨proj, ds⟩ := pd
      rw [hk]
      dsimp only
      split
      · rename_i hrt
        cases hlt : env.listTables proj ds with
        | error e =>
          simp only [List.not_mem_nil, false_iff]
          rintro ⟨_, h2, _, ⟨ts, hts, _⟩, _⟩
          have hpd : proj = p ∧ ds = d := by
            injection h2 with hh
            exact ⟨congrArg Prod.fst hh, congrArg Prod.snd hh⟩
          obtain ⟨rfl, rfl⟩ := hpd
          rw [hlt] at hts
          exact Except.noConfusion hts
        | ok tabs =>
          rw [List.mem_flatMap]
          constructor
          · rintro ⟨t, htm, hcall⟩
            obtain ⟨h1, h2, h3, h4⟩ := (mem_tableCalls_table args env proj ds t p d tid
              hk htf).1 hcall
            subst h1
            subst h2
            exact ⟨hlast, rfl, hrt, ⟨tabs, hlt, t, htm, h3.symm⟩, h3.symm ▸ h4⟩
          · rintro ⟨_, h2, _, ⟨ts, hts, t, htm, h4⟩, h5⟩
            have hpd : proj = p ∧ ds = d := by
              injection h2 with hh
              exact ⟨congrArg Prod.fst hh, congrArg Prod.snd hh⟩
            obtain ⟨rfl, rfl⟩ := hpd
            rw [hlt] at hts
            have hts2 : tabs = ts := Except.ok.inj hts
            subst hts2
            exact ⟨t, htm, (mem_tableCalls_table args env proj ds t proj ds tid
              hk htf).2 ⟨rfl, rfl, h4.symm, h4.trans h5⟩⟩
      · rename_i hrt
        simp only [List.not_mem_nil, false_iff]
        rintro ⟨_, _, h3, _⟩
        exact hrt h3

theorem walk1Tables_calls (tf : Option PyStr) (proj ds : PyStr) :
    ∀ (ts : List TableInfo) (acc : List AttachCall),
    walk1Tables tf proj ds acc ts = acc ++ ts.flatMap (tableCalls1 tf proj ds) := by
  intro ts
  induction ts with
  | nil => intro acc; simp [walk1Tables]
  | cons t ts ih =>
    intro acc
    simp only [walk1Tables]
    split
    · rename_i h
      rw [ih]
      simp [tableCalls1, h]
    · rename_i h
      rw [ih]
      simp [tableCalls1, h]

theorem walk1Assets_calls (af tf : Option PyStr) (env : LakeEnv) :
    ∀ (as : List AssetInfo),
    (∀ a ∈ as, a.rtype = some "BIGQUERY_DATASET".data →
      ∃ pd, parse1Resource a = some pd
        ∧ (∃ loc, env.getDataset pd.1 pd.2 = .ok loc)
        ∧ (∃ ts, env.listTables pd.1 pd.2 = .ok ts)) →
    ∀ (acc : List AttachCall),
    walk1Assets af tf env acc as = .ok (acc ++ as.flatMap (asset1Calls af tf env)) := by
  intro as
  induction as with
  | nil => intro _ acc; simp [walk1Assets]
  | cons a rest ih =>
    intro hwf acc
    have hrest := fun a2 ha2 => hwf a2 (List.mem_cons_of_mem _ ha2)
    simp only [walk1Assets]
    split
    · rename_i h
      rw [ih hrest]
      simp [asset1Calls, h]
    · rename_i h
      by_cases hbq : a.rtype = some "BIGQUERY_DATASET".data
      · rw [if_pos hbq]
        obtain ⟨⟨proj, ds⟩, hparse, ⟨loc, hgd⟩, ⟨ts, hlt⟩⟩ :=
          hwf a (List.mem_cons_self _ _) hbq
        cases hr : a.resource with
        | none =>
          exfalso
          unfold parse1Resource at hparse
          rw [hr] at hparse
          exact Option.noConfusion hparse
        | some r =>
          have hparse2 := hparse
          unfold parse1Resource at hparse2
          rw [hr] at hparse2
          dsimp only at hparse2
          by_cases hlen : (splitOnChar '/' (stripBqService r)).length < 4
          · rw [if_pos hlen] at hparse2
            exact absurd hparse2 (by simp)
          · rw [if_neg hlen] at hparse2
            have hpq : (splitOnChar '/' (stripBqService r)).getD 1 [] = proj ∧
                (splitOnChar '/' (stripBqService r)).getD 3 [] = ds := by
              injection hparse2 with hh
              exact ⟨congrArg Prod.fst hh, congrArg Prod.snd hh⟩
            have hgd2 : env.getDataset proj ds = .ok loc := hgd
            have hlt2 : env.listTables proj ds = .ok ts := hlt
            dsimp only
            rw [if_neg hlen, hpq.1, hpq.2, hgd2, hlt2]
            dsimp only
            rw [walk1Tables_calls, ih hrest]
            simp [asset1Calls, h, hbq, hparse, hlt2]
      · rw [if_neg hbq]
        rw [ih hrest]
        simp [asset1Calls, h, hbq]

theorem walk1Zones_calls (af tf : Option PyStr) (env : LakeEnv) :
    ∀ (zs : List ZoneInfo),
    (∀ z ∈ zs, ∃ as, z.assetsResp = .ok as ∧ ∀ a ∈ as,
      a.rtype = some "BIGQUERY_DATASET".data →
        ∃ pd, parse1Resource a = some pd
          ∧ (∃ loc, env.getDataset pd.1 pd.2 = .ok loc)
          ∧ (∃ ts, env.listTables pd.1 pd.2 = .ok ts)) →
    ∀ (acc : List AttachCall),
    walk1Zones af tf env acc zs =
      .ok (acc ++ zs.flatMap (fun z => (zoneAssets z).flatMap (asset1Calls af tf env))) := by
  intro zs
  induction zs with
  | nil => intro _ acc; simp [walk1Zones]
  | cons z rest ih =>
    intro hwf acc
    obtain ⟨as, hok, hwfa⟩ := hwf z (List.mem_cons_self _ _)
    have hrest := fun z2 hz2 => hwf z2 (List.mem_cons_of_mem _ hz2)
    simp only [walk1Zones, hok]
    rw [walk1Assets_calls af tf env as hwfa acc]
    dsimp only
    rw [ih hrest]
    simp [zoneAssets, hok]

theorem lakeProgram_calls (cat : AspectCatalog) (args : Args1) (env : LakeEnv)
    (zones : List ZoneInfo) (r : List PyStr)
    (hres : resolveAspects cat args.aspects = .ok r)
    (hlake : env.lakeOk = true)
    (hz : env.zonesResp = .ok zones)
    (hwf : ∀ z ∈ zones, ∃ as, z.assetsResp = .ok as ∧ ∀ a ∈ as,
      a.rtype = some "BIGQUERY_DATASET".data →
        ∃ pd, parse1Resource a = some pd
          ∧ (∃ loc, env.getDataset pd.1 pd.2 = .ok loc)
          ∧ (∃ ts, env.listTables pd.1 pd.2 = .ok ts)) :
    (lakeProgram cat args env).calls =
      zones.flatMap (fun z => (zoneAssets z).flatMap
        (asset1Calls (args.asset.map pyStrip) (args.table.map pyStrip) env)) := by
  have hw := walk1Zones_calls (args.asset.map pyStrip) (args.table.map pyStrip) env
    zones hwf []
  simp [lakeProgram, hres, lakeMain, hlake, hz, hw]

theorem mem_tableCalls1 (tf : Option PyStr) (proj ds : PyStr) (t : TableInfo)
    (p d tid : PyStr) (htf : truthy tf = true) :
    AttachCall.mk p d (some tid) none ∈ tableCalls1 tf proj ds t ↔
      (p = proj ∧ d = ds ∧ tid = t.table_id ∧ t.table_id = tf.getD []) := by
  unfold tableCalls1
  split
  · rename_i h
    simp only [List.not_mem_nil, false_iff]
    rintro ⟨_, _, _, h4⟩
    exact h.2 h4
  · rename_i h
    have hteq : t.table_id = tf.getD [] := by
      by_contra hne
      exact h ⟨htf, hne⟩
    rw [List.mem_singleton]
    constructor
    · intro he
      rw [AttachCall.mk.injEq] at he
      obtain ⟨h1, h2, h3, _⟩ := he
      exact ⟨h1, h2, Option.some.inj h3, hteq⟩
    · rintro ⟨rfl, rfl, rfl, _⟩
      rfl

theorem mem_asset1Calls (af tf : Option PyStr) (env : LakeEnv) (a : AssetInfo)
    (p d tid : PyStr) (haf : truthy af = true) (htf : truthy tf = true) :
    AttachCall.mk p d (some tid) none ∈ asset1Calls af tf env a ↔
      (lastComponent a.name = af.getD []
       ∧ a.rtype = some "BIGQUERY_DATASET".data
       ∧ parse1Resource a = some (p, d)
       ∧ (∃ ts, env.listTables p d = .ok ts ∧ ∃ t ∈ ts, t.table_id = tid)
       ∧ tid = tf.getD []) := by
  unfold asset1Calls
  split
  · rename_i h
    simp only [List.not_mem_nil, false_iff]
    rintro ⟨h1, _⟩
    exact h.2 h1
  · rename_i h
    have hlast : lastComponent a.name = af.getD [] := by
      by_contra hne
      exact h ⟨haf, hne⟩
    by_cases hbq : a.rtype = some "BIGQUERY_DATASET".data
    · rw [if_pos hbq]
      cases hpr : parse1Resource a with
      | none =>
        dsimp only
        simp only [List.not_mem_nil, false_iff]
        rintro ⟨_, _, h3, _⟩
        exact Option.noConfusion h3
      | some pd =>
        obtain ⟨proj, ds⟩ := pd
        dsimp only
        cases hlt : env.listTables proj ds with
        | error e =>
          dsimp only
          simp only [List.not_mem_nil, false_iff]
          rintro ⟨_, _, h3, ⟨ts, hts, _⟩, _⟩
          have hpd : proj = p ∧ ds = d := by
            injection h3 with hh
            exact ⟨congrArg Prod.fst hh, congrArg Prod.snd hh⟩
          obtain ⟨rfl, rfl⟩ := hpd
          rw [hlt] at hts
          exact Except.noConfusion hts
        | ok tabs =>
          dsimp only
          rw [List.mem_flatMap]
          constructor
          · rintro ⟨t, htm, hcall⟩
            obtain ⟨h1, h2, h3, h4⟩ := (mem_tableCalls1 tf proj ds t p d tid htf).1 hcall
            subst h1
            subst h2
            exact ⟨hlast, hbq, rfl, ⟨tabs, hlt, t, htm, h3.symm⟩, h3.trans h4⟩
          · rintro ⟨_, _, h3, ⟨ts, hts, t, htm, h4⟩, h5⟩
            have hpd : proj = p ∧ ds = d := by
              injection h3 with hh
              exact ⟨congrArg Prod.fst hh, congrArg Prod.snd hh⟩
            obtain ⟨rfl, rfl⟩ := hpd
            rw [hlt] at hts
            have hts2 : tabs = ts := Except.ok.inj hts
            subst hts2
            exact ⟨t, htm, (mem_tableCalls1 tf proj ds t proj ds tid htf).2
              ⟨rfl, rfl, h4.symm, h4.trans h5⟩⟩
    · rw [if_neg hbq]
      simp only [List.not_mem_nil, false_iff]
      rintro ⟨_, h2, _⟩
      exact hbq h2

/-- C6: in both scripts, with an asset filter and a table filter both
given (and the listings succeeding), a table-granularity attachment for
`(p, d, tid)` is issued if and only if it comes from a discoverable
dataset-backed asset whose identifier equals the asset filter and a listed
table whose identifier equals the table filter — filters are conjunctive,
and non-matching assets are not descended into. The first conjunct settles
`aspect_attach_column.py`, the second `aspect_attach.py` (whose filters
are the stripped `--asset`/`--table` values). -/
theorem conjunctive_scope_filters (cat : AspectCatalog) (args : Args) (env : ColEnv)
    (zones : List ZoneInfo) (r : List PyStr) (p d tid : PyStr)
    (cat1 : AspectCatalog) (args1 : Args1) (env1 : LakeEnv)
    (zones1 : List ZoneInfo) (r1 : List PyStr) (p1 d1 tid1 : PyStr)
    (hres : resolveAspects cat args.aspects = .ok r)
    (hz : env.zonesResp = .ok zones)
    (hza : ∀ z ∈ zones, ∃ as, z.assetsResp = .ok as)
    (hk : args.entry_type = .table)
    (ha : truthy args.asset = true)
    (htf : truthy args.table = true)
    (hg : ∀ p2 d2 t2, ∃ fs, env.getTable p2 d2 t2 = .ok fs)
    (hres1 : resolveAspects cat1 args1.aspects = .ok r1)
    (hlake : env1.lakeOk = true)
    (hz1 : env1.zonesResp = .ok zones1)
    (hwf1 : ∀ z ∈ zones1, ∃ as, z.assetsResp = .ok as ∧ ∀ a ∈ as,
      a.rtype = some "BIGQUERY_DATASET".data →
        ∃ pd, parse1Resource a = some pd
          ∧ (∃ loc, env1.getDataset pd.1 pd.2 = .ok loc)
          ∧ (∃ ts, env1.listTables pd.1 pd.2 = .ok ts))
    (ha1 : truthy (args1.asset.map pyStrip) = true)
    (htf1 : truthy (args1.table.map pyStrip) = true) :
    (AttachCall.mk p d (some tid) none ∈ (colProgram cat args env).calls ↔
      ∃ z ∈ zones, ∃ a ∈ zoneAssets z,
        lastComponent a.name = args.asset.getD []
        ∧ parseResource a = some (p, d)
        ∧ a.rtype = some "BIGQUERY_DATASET".data
        ∧ (∃ ts, env.listTables p d = .ok ts ∧ ∃ t ∈ ts, t.table_id = tid)
        ∧ tid = args.table.getD [])
    ∧ (AttachCall.mk p1 d1 (some tid1) none ∈ (lakeProgram cat1 args1 env1).calls ↔
      ∃ z ∈ zones1, ∃ a ∈ zoneAssets z,
        lastComponent a.name = (args1.asset.map pyStrip).getD []
        ∧ a.rtype = some "BIGQUERY_DATASET".data
        ∧ parse1Resource a = some (p1, d1)
        ∧ (∃ ts, env1.listTables p1 d1 = .ok ts ∧ ∃ t ∈ ts, t.table_id = tid1)
        ∧ tid1 = (args1.table.map pyStrip).getD []) := by
  constructor
  · have hcp : colProgram cat args env = colMain args env := by simp [colProgram, hres]
    rw [hcp, colMain_calls args env zones hz hza (Or.inl hk) hg]
    rw [List.mem_flatMap]
    constructor
    · rintro ⟨z, hzm, hin⟩
      rw [List.mem_flatMap] at hin
      obtain ⟨a, ham, hcall⟩ := hin
      exact ⟨z, hzm, a, ham, (mem_assetCalls_table args env a p d tid hk ha htf).1 hcall⟩
    · rintro ⟨z, hzm, a, ham, hr⟩
      refine ⟨z, hzm, ?_⟩
      rw [List.mem_flatMap]
      exact ⟨a, ham, (mem_assetCalls_table args env a p d tid hk ha htf).2 hr⟩
  · rw [lakeProgram_calls cat1 args1 env1 zones1 r1 hres1 hlake hz1 hwf1]
    rw [List.mem_flatMap]
    constructor
    · rintro ⟨z, hzm, hin⟩
      rw [List.mem_flatMap] at hin
      obtain ⟨a, ham, hcall⟩ := hin
      exact ⟨z, hzm, a, ham,
        (mem_asset1Calls (args1.asset.map pyStrip) (args1.table.map pyStrip) env1 a
          p1 d1 tid1 ha1 htf1).1 hcall⟩
    · rintro ⟨z, hzm, a, ham, hr⟩
      refine ⟨z, hzm, ?_⟩
      rw [List.mem_flatMap]
      exact ⟨a, ham,
        (mem_asset1Calls (args1.asset.map pyStrip) (args1.table.map pyStrip) env1 a
          p1 d1 tid1 ha1 htf1).2 hr⟩

/-- C6 witness: in the two-asset world, both scripts issue the attachment
for `(p, d1, t2)` — the asset matching filter `ds1` and the table matching
filter `t2`. -/
theorem conjunctive_scope_filters_witness :
    AttachCall.mk "p".data "d1".data (some "t2".data) none ∈
      (colProgram oneAspectCat colArgsBothFilters colEnvTwoAssets).calls
    ∧ AttachCall.mk "p".data "d1".data (some "t2".data) none ∈
      (lakeProgram oneAspectCat lakeArgsBothFilters lakeEnvTwoAssets).calls := by
  have hiff := conjunctive_scope_filters oneAspectCat colArgsBothFilters colEnvTwoAssets
    zonesTwoAssets ["a".data] "p".data "d1".data "t2".data
    oneAspectCat lakeArgsBothFilters lakeEnvTwoAssets
    zonesTwoAssets ["a".data] "p".data "d1".data "t2".data
    rfl rfl
    (by
      intro z hz
      simp only [zonesTwoAssets, List.mem_singleton] at hz
      subst hz
      exact ⟨_, rfl⟩)
    rfl rfl rfl (fun _ _ _ => ⟨[], rfl⟩)
    rfl rfl rfl
    (by
      intro z hz
      simp only [zonesTwoAssets, List.mem_singleton] at hz
      subst hz
      refine ⟨_, rfl, ?_⟩
      intro a ha hbq
      simp only [zoneTwoAssets, List.mem_cons, List.mem_singleton] at ha
      rcases ha with rfl | rfl | hemp
      · exact ⟨("p".data, "d1".data), by decide, ⟨"us".data, rfl⟩,
          ⟨[⟨"t1".data⟩, ⟨"t2".data⟩], by decide⟩⟩
      · exact ⟨("p".data, "d2".data), by decide, ⟨"us".data, rfl⟩,
          ⟨[⟨"t2".data⟩], by decide⟩⟩
      · exact absurd hemp (List.not_mem_nil a))
    (by decide) (by decide)
  constructor
  · exact hiff.1.2
      ⟨zoneTwoAssets, by simp [zonesTwoAssets], assetDs1,
       by decide, by decide, by decide, by decide,
       ⟨[⟨"t1".data⟩, ⟨"t2".data⟩], rfl, ⟨"t2".data⟩, by decide, rfl⟩, rfl⟩
  · exact hiff.2.2
      ⟨zoneTwoAssets, by simp [zonesTwoAssets], assetDs1,
       by decide, by decide, by decide, by decide,
       ⟨[⟨"t1".data⟩, ⟨"t2".data⟩], by decide, ⟨"t2".data⟩, by decide, rfl⟩, by decide⟩

/-- C8 counterexample: with entry kind = asset, a `STORAGE_BUCKET` asset
whose resource path `projects/p/buckets/b` splits into four components is
attached at "dataset" granularity (bucket id in the dataset slot) — the
resource-type tag is never consulted, refuting the claim that unsupported
resource types yield no attachment. -/
theorem asset_kind_ignores_type_counterexample :
    bucketAsset.rtype = some "STORAGE_BUCKET".data
    ∧ colProgram oneAspectCat colArgsAsset colEnvBucket =
        ⟨[⟨"p".data, "b".data, none, none⟩], 1, .exitCode 0⟩ := by
  constructor
  · rfl
  · rfl

theorem mem_assetCalls_asset (args : Args) (env : ColEnv) (a : AssetInfo) (p d : PyStr)
    (hk : args.entry_type = .asset) :
    AttachCall.mk p d none none ∈ assetCalls args env a ↔
      ((truthy args.asset = true → lastComponent a.name = args.asset.getD [])
       ∧ parseResource a = some (p, d)) := by
  unfold assetCalls
  split
  · rename_i h
    simp only [List.not_mem_nil, false_iff]
    rintro ⟨h1, _⟩
    exact h.2 (h1 h.1)
  · rename_i h
    have hlast : truthy args.asset = true → lastComponent a.name = args.asset.getD [] := by
      intro htr
      by_contra hne
      exact h ⟨htr, hne⟩
    cases hpr : parseResource a with
    | none =>
      simp only [List.not_mem_nil, false_iff]
      rintro ⟨_, h2⟩
      exact Option.noConfusion h2
    | some pd =>
      obtain ⟨proj, ds⟩ := pd
      rw [hk]
      dsimp only
      rw [List.mem_singleton]
      constructor
      · intro he
        rw [AttachCall.mk.injEq] at he
        obtain ⟨rfl, rfl, _, _⟩ := he
        exact ⟨hlast, rfl⟩
      · rintro ⟨_, h2⟩
        have hpd : proj = p ∧ ds = d := by
          injection h2 with hh
          exact ⟨congrArg Prod.fst hh, congrArg Prod.snd hh⟩
        obtain ⟨rfl, rfl⟩ := hpd
        rfl

/-- C8 (amended): with entry kind = asset (and zone/asset listings
succeeding), a dataset-granularity attachment for `(p, d)` is issued if
and only if some discovered asset passes the asset filter and its resource
path parses into the 4-component `(p, d)` dataset form — the asset's
resource-type tag is not consulted, so unsupported (non-dataset) resource
types with a 4-component path are attached too. -/
theorem asset_kind_resource_parse_gate (cat : AspectCatalog) (args : Args) (env : ColEnv)
    (zones : List ZoneInfo) (r : List PyStr) (p d : PyStr)
    (hres : resolveAspects cat args.aspects = .ok r)
    (hz : env.zonesResp = .ok zones)
    (hza : ∀ z ∈ zones, ∃ as, z.assetsResp = .ok as)
    (hk : args.entry_type = .asset)
    (hg : ∀ p2 d2 t2, ∃ fs, env.getTable p2 d2 t2 = .ok fs) :
    AttachCall.mk p d none none ∈ (colProgram cat args env).calls ↔
      ∃ z ∈ zones, ∃ a ∈ zoneAssets z,
        (truthy args.asset = true → lastComponent a.name = args.asset.getD [])
        ∧ parseResource a = some (p, d) := by
  have hcp : colProgram cat args env = colMain args env := by simp [colProgram, hres]
  rw [hcp, colMain_calls args env zones hz hza (Or.inr hk) hg]
  rw [List.mem_flatMap]
  constructor
  · rintro ⟨z, hzm, hin⟩
    rw [List.mem_flatMap] at hin
    obtain ⟨a, ham, hcall⟩ := hin
    exact ⟨z, hzm, a, ham, (mem_assetCalls_asset args env a p d hk).1 hcall⟩
  · rintro ⟨z, hzm, a, ham, hr⟩
    refine ⟨z, hzm, ?_⟩
    rw [List.mem_flatMap]
    exact ⟨a, ham, (mem_assetCalls_asset args env a p d hk).2 hr⟩

/-- C8 witness: the amended gate applied to the bucket world — the
attachment for `(p, b)` is issued because the bucket's path parses, even
though its type is `STORAGE_BUCKET`. -/
theorem asset_kind_resource_parse_gate_witness :
    AttachCall.mk "p".data "b".data none none ∈
      (colProgram oneAspectCat colArgsAsset colEnvBucket).calls :=
  (asset_kind_resource_parse_gate oneAspectCat colArgsAsset colEnvBucket
      zonesBucket ["a".data] "p".data "b".data
      rfl rfl
      (by
        intro z hz
        simp only [zonesBucket, List.mem_singleton] at hz
        subst hz
        exact ⟨_, rfl⟩)
      rfl (fun _ _ _ => ⟨[], rfl⟩)).2
    ⟨⟨"projects/x/locations/l/lakes/lk/zones/z1".data, .ok [bucketAsset]⟩,
     by simp [zonesBucket], bucketAsset, by decide,
     by intro h; exact absurd h (by decide), by decide⟩
